import Mathlib

/-!
# Verification of the DripTorch ignition-pattern generator

This file gives a shallow embedding, in Lean 4, of the core algorithms of the
DripTorch prescribed-burn ignition-pattern generator, and proves (or refutes)
the testable properties stated in its specification:

* the neighborhood construction and Dijkstra solver of the strip-contour
  cost-distance transform (`driptorch/firing/strip_contour.py`),
* the geodesic distance transform of `driptorch/_distance.py`,
* the contour grouping and emission of `CostDistance.iterate`,
* the igniter / ignition-crew constructors of `driptorch/personnel.py`,
* the temporal propagator of `driptorch/pattern.py`.

Python floats are idealised as `ℚ` or `ℝ` (with `EReal` where `np.inf`
participates); Python exceptions (`AttributeError`, `IndexError`,
`ZeroDivisionError`) are modelled with an `Except` monad; `while` loops are
modelled with an explicit fuel parameter, returning `none` when the fuel runs
out, so that a terminating Python execution corresponds to `some`/`.ok`
results for every sufficiently large fuel.  External libraries (shapely,
numpy's geometric helpers, skimage's `find_contours`) are treated as
parameters of the embedding: geometries are opaque values together with the
query functions (`length`, `distance`, `coords`, `interpolate`) the source
invokes on them.
-/

namespace DripTorch

/-! ## `strip_contour.CostDistanceDEM.get_neighbors`

Embedding of `CostDistanceDEM.get_neighbors` (strip_contour.py lines
122-164).  The grid is stored flattened; `index` is a 1-d cell index.  The
neighbor kernel and the `-999` masking of boundary slots are reproduced
exactly, including the comparison `matcoords[1] <= self.cols-1` that the
source comments as the first-column check.  numpy fancy assignment
`a[[i,j,k]] = -999` is rendered with `List.set`. -/

namespace StripContour

/-- Embedding of `self.neighbor_kernel`: 1-d offsets of the 8 neighbors. -/
def neighborKernel (cols : ℤ) : List ℤ :=
  [-cols - 1, -cols, -cols + 1, -1, 1, cols - 1, cols, cols + 1]

/-- Embedding of `self.neighbor_kernel_dists`: planar distances of the 8
neighbors (`2**.5` for the diagonals). -/
noncomputable def neighborKernelDists : List ℝ :=
  [Real.sqrt 2, 1, Real.sqrt 2, 1, 1, Real.sqrt 2, 1, Real.sqrt 2]

/-- Embedding of `CostDistanceDEM.get_index`: 2-d coordinates of a
flattened index (`index // cols`, `index % cols`). -/
def get_index (cols index : ℕ) : ℤ × ℤ :=
  ((index / cols : ℕ), (index % cols : ℕ))

/-- Embedding of `CostDistanceDEM.get_neighbors`: masked neighborhood of a
flattened cell index, as a list of `(start, stop, distance)` edges. -/
noncomputable def get_neighbors (rows cols index : ℕ) : List (ℤ × ℤ × ℝ) :=
  let matcoords := get_index cols index
  let neighborhood := (neighborKernel cols).map (fun d => d + (index : ℤ))
  let distances := neighborKernelDists
  -- if matcoords[0] <= 0 (first row): remove slots 0, 1, 2
  let nd₁ :=
    if matcoords.1 ≤ 0 then
      (((neighborhood.set 0 (-999)).set 1 (-999)).set 2 (-999),
       ((distances.set 0 (-999)).set 1 (-999)).set 2 (-999))
    else (neighborhood, distances)
  -- if matcoords[0] >= rows-1 (last row): remove slots 5, 6, 7
  let nd₂ :=
    if matcoords.1 ≥ (rows : ℤ) - 1 then
      (((nd₁.1.set 5 (-999)).set 6 (-999)).set 7 (-999),
       ((nd₁.2.set 5 (-999)).set 6 (-999)).set 7 (-999))
    else nd₁
  -- if matcoords[1] <= cols-1 (commented "first column"): remove slots 0, 3, 5
  let nd₃ :=
    if matcoords.2 ≤ (cols : ℤ) - 1 then
      (((nd₂.1.set 0 (-999)).set 3 (-999)).set 5 (-999),
       ((nd₂.2.set 0 (-999)).set 3 (-999)).set 5 (-999))
    else nd₂
  -- if matcoords[1] >= cols-1 (last column): remove slots 2, 4, 7
  let nd₄ :=
    if matcoords.2 ≥ (cols : ℤ) - 1 then
      (((nd₃.1.set 2 (-999)).set 4 (-999)).set 7 (-999),
       ((nd₃.2.set 2 (-999)).set 4 (-999)).set 7 (-999))
    else nd₃
  -- to_keep = neighborhood != -999; zip with the constant start index
  ((nd₄.1.zip nd₄.2).filter (fun p => p.1 ≠ -999)).map
    (fun p => ((index : ℤ), p.1, p.2))

/-- Helper theorem: the neighborhood returned at the interior cell `4` of a
3x3 grid.  The west (`3`), north-west (`0`) and south-west (`6`) neighbors
are missing, although cell `4` is interior: the comparison
`matcoords[1] <= self.cols-1` in the source holds for every cell, so slots
0, 3 and 5 are always masked out. -/
theorem get_neighbors_center_3x3 :
    get_neighbors 3 3 4 =
      [((4 : ℤ), (1 : ℤ), (1 : ℝ)), (4, 2, Real.sqrt 2), (4, 5, 1),
       (4, 7, 1), (4, 8, Real.sqrt 2)] := by
  simp [get_neighbors, get_index, neighborKernel, neighborKernelDists]

/-- C1: the strip-contour Dijkstra solver is claimed to minimise over all
8-connected paths, but `get_neighbors` never returns the west neighbor
`index - 1` of any cell (for any grid with at least 3 columns), because the
guard `matcoords[1] <= self.cols-1` — commented in the source as the
first-column check — is satisfied by every cell, so the western slots are
unconditionally masked with `-999` and filtered out.  Leftward relaxation
is therefore impossible and the computed costs are not the 8-connected
minima: the code contradicts its own comment (a code bug). -/
theorem get_neighbors_never_west (rows cols index : ℕ) (hc : 3 ≤ cols) :
    ∀ e ∈ get_neighbors rows cols index, e.2.1 ≠ (index : ℤ) - 1 := by
  intro e he
  have h3 : ((index % cols : ℕ) : ℤ) ≤ (cols : ℤ) - 1 := by
    have := Nat.mod_lt index (show 0 < cols by omega)
    omega
  simp only [get_neighbors, get_index, neighborKernel, neighborKernelDists,
    List.map_cons, List.map_nil] at he
  rw [if_pos h3] at he
  split_ifs at he <;>
  · simp only [List.set, List.zip_cons_cons, List.zip_nil_right, List.zip_nil_left,
      List.mem_map, List.mem_filter, decide_eq_true_eq] at he
    obtain ⟨p, ⟨hmem, hne⟩, rfl⟩ := he
    simp only [List.mem_cons, List.not_mem_nil, or_false] at hmem
    rcases hmem with rfl | rfl | rfl | rfl | rfl | rfl | rfl | rfl <;>
      simp only [ne_eq, Prod.fst] at hne ⊢ <;> omega

/-- Witness for `get_neighbors_never_west` at the interior cell `4` of a
3x3 grid: the west neighbor edge `(4, 3, 1)` is not returned. -/
theorem get_neighbors_never_west_witness :
    ((4 : ℤ), (3 : ℤ), (1 : ℝ)) ∉ get_neighbors 3 3 4 :=
  fun h => get_neighbors_never_west 3 3 4 (by norm_num) _ h (by norm_num)

end StripContour

/-! ## Python value and error model

A small model of the Python dynamic features the embedded code relies on:
attribute dictionaries (`self.x = ...` assignments, `obj.x` reads raising
`AttributeError` when missing), `None`, truthiness, and the exceptions the
embedded functions can raise.  Floats are idealised as `ℚ` here. -/

/-- Dynamic values held in modelled Python attributes. -/
inductive PyVal where
  | none
  | num (q : ℚ)
  | str (s : String)
deriving DecidableEq

/-- Exceptions (and two pseudo-outcomes) of the modelled Python code.
`nanResult` marks a pandas reduction over an empty selection, which yields
`NaN` in Python and poisons every later arithmetic result; `fuelExhausted`
marks insufficient fuel for a `while` loop and corresponds to no Python
outcome at all. -/
inductive PyErr where
  | attributeError (name : String)
  | igniterError (reason : String)
  | indexError
  | zeroDivisionError
  | typeError
  | nanResult
  | fuelExhausted
deriving DecidableEq

/-- A Python object modelled as its ordered attribute dictionary. -/
abbrev PyObj : Type := List (String × PyVal)

/-- Attribute lookup: `obj.name`, raising `AttributeError` when absent. -/
def pyGetAttr (obj : PyObj) (name : String) : Except PyErr PyVal :=
  match obj.find? (fun kv => kv.1 == name) with
  | some kv => .ok kv.2
  | Option.none => .error (.attributeError name)

/-- Truthiness of a modelled Python value (`None`, `0` and `""` are falsy). -/
def pyTruthy : PyVal → Bool
  | .none => false
  | .num q => q != 0
  | .str s => s != ""

/-- Numeric coercion: arithmetic on a non-number raises `TypeError`. -/
def pyNum : PyVal → Except PyErr ℚ
  | .num q => .ok q
  | _ => .error .typeError

/-- Python float division: `a / b` raises `ZeroDivisionError` when `b = 0`. -/
def pyDiv (a b : ℚ) : Except PyErr ℚ :=
  if b = 0 then .error .zeroDivisionError else .ok (a / b)

/-- List indexing `xs[i]` for a non-negative index, raising `IndexError`
out of range (this also models `.iloc[0]` / `.values[0]` on an empty
pandas selection). -/
def pyIndex {α : Type} (xs : List α) (i : ℕ) : Except PyErr α :=
  match xs.get? i with
  | some a => .ok a
  | Option.none => .error .indexError

/-! ## `personnel.Igniter` and `personnel.IgnitionCrew`

Embedding of `Igniter.__init__` (personnel.py lines 19-44) and
`IgnitionCrew.add_igniter` with its two validators (lines 158-218).  The
constructor is rendered as the attribute dictionary it leaves behind; note
that it assigns only `velocity`, `interval_units` and `interval`. -/

namespace Personnel

/-- Embedding of `Igniter.__init__(velocity, interval, interval_units)`:
the resulting attribute dictionary, or the exception raised while
computing it (`interval / velocity` can raise `ZeroDivisionError`). -/
def igniterInit (velocity interval : ℚ) (interval_units : String) :
    Except PyErr PyObj := do
  -- self.velocity = velocity ; self.interval_units = interval_units
  let base : PyObj := [("velocity", .num velocity), ("interval_units", .str interval_units)]
  if interval = 0 then
    -- solid ignition line: self.interval = 0
    pure (base ++ [("interval", .num 0)])
  else if interval_units = "seconds" then do
    -- self.interval = 1.0 / (interval / velocity)
    let q ← pyDiv interval velocity
    let r ← pyDiv 1 q
    pure (base ++ [("interval", .num r)])
  else do
    -- self.interval = 1.0 / interval
    let r ← pyDiv 1 interval
    pure (base ++ [("interval", .num r)])

/-- State of an `IgnitionCrew`: the two sameness flags, the two
requirement registers (initially `None`), and the igniter list. -/
structure IgnitionCrew where
  same_velocity : Bool
  same_interval : Bool
  velocity_req : PyVal
  interval_req : PyVal
  igniters : List PyObj
deriving DecidableEq

/-- Embedding of `IgnitionCrew.__init__`. -/
def crewInit (same_velocity same_interval : Bool) : IgnitionCrew :=
  ⟨same_velocity, same_interval, .none, .none, []⟩

/-- Embedding of `IgnitionCrew._validate_velocity`.  Note the truthiness
test `if self._velocity_req:` of the source, under which a requirement of
`0` counts as unset. -/
def validateVelocity (crew : IgnitionCrew) (velocity : PyVal) :
    Except PyErr IgnitionCrew :=
  if crew.same_velocity then
    if pyTruthy crew.velocity_req then
      if velocity ≠ crew.velocity_req then
        .error (.igniterError "unequal_velocities")
      else .ok crew
    else .ok { crew with velocity_req := velocity }
  else .ok crew

/-- Embedding of `IgnitionCrew._validate_interval`. -/
def validateInterval (crew : IgnitionCrew) (interval : PyVal) :
    Except PyErr IgnitionCrew :=
  if crew.same_interval then
    if pyTruthy crew.interval_req then
      if interval ≠ crew.interval_req then
        .error (.igniterError "unequal_intervals")
      else .ok crew
    else .ok { crew with interval_req := interval }
  else .ok crew

/-- Embedding of `IgnitionCrew.add_igniter`: validate the igniter's
velocity and interval, then append it. -/
def addIgniter (crew : IgnitionCrew) (igniter : PyObj) :
    Except PyErr IgnitionCrew := do
  let v ← pyGetAttr igniter "velocity"
  let crew ← validateVelocity crew v
  let i ← pyGetAttr igniter "interval"
  let crew ← validateInterval crew i
  pure { crew with igniters := crew.igniters ++ [igniter] }

/-- C10 counterexample: an igniter with velocity `-1` is accepted both by
`Igniter.__init__` and by `IgnitionCrew.add_igniter` — no error is raised
anywhere, refuting the claim that a non-positive velocity fails fast. -/
theorem negative_velocity_accepted :
    igniterInit (-1) 0 "meters" =
      .ok [("velocity", .num (-1)), ("interval_units", .str "meters"),
           ("interval", .num 0)] ∧
    addIgniter (crewInit true true)
        [("velocity", .num (-1)), ("interval_units", .str "meters"),
         ("interval", .num 0)] =
      .ok ⟨true, true, .num (-1), .num 0, -- interval 0 is falsy, req still set
           [[("velocity", .num (-1)), ("interval_units", .str "meters"),
             ("interval", .num 0)]]⟩ := by
  constructor <;> rfl

/-- C10 amended: neither `Igniter.__init__` nor
`IgnitionCrew.add_igniter` validates the sign of the velocity; every
igniter with non-positive velocity (and interval `0`) is constructed and
added to a fresh crew without any exception.  Only equality with the
crew's velocity/interval requirement is ever checked. -/
theorem nonpositive_velocity_accepted (v : ℚ) (hv : v ≤ 0) :
    ∃ ig : PyObj, igniterInit v 0 "meters" = .ok ig ∧
      ∃ crew : IgnitionCrew, addIgniter (crewInit true true) ig = .ok crew := by
  clear hv
  refine ⟨[("velocity", .num v), ("interval_units", .str "meters"),
           ("interval", .num 0)], ?_, ?_⟩
  · simp [igniterInit]; rfl
  · exact ⟨_, rfl⟩

/-- Witness for `nonpositive_velocity_accepted` at `v = -2`. -/
theorem nonpositive_velocity_accepted_witness :
    (-2 : ℚ) ≤ 0 ∧
      ∃ ig : PyObj, igniterInit (-2) 0 "meters" = .ok ig ∧
        ∃ crew : IgnitionCrew, addIgniter (crewInit true true) ig = .ok crew :=
  ⟨by norm_num, nonpositive_velocity_accepted (-2) (by norm_num)⟩

end Personnel

/-! ## `strip_contour.CostDistance.iterate`: contour grouping and emission

Embedding of the contour-to-path part of `CostDistance.iterate`
(strip_contour.py lines 353-385).  The extracted contours and their
shapely intersections with the burn unit are external inputs: a contour is
modelled by the length of its `bounds` tuple together with the result of
`contour.intersection(burn_unit.polygon)`, which the source normalises to
a list of `LineString`s.  A `LineString` is modelled by its coordinate
sequence; a non-empty line has a 4-tuple `bounds`, an empty one has `()`.
-/

namespace Contour

/-- A shapely `LineString`, modelled by its coordinate sequence. -/
abbrev Line : Type := List (ℚ × ℚ)

/-- Result of `contour.intersection(polygon)` as dispatched by the source:
either a single `LineString` or a `MultiLineString`. -/
inductive IntersectRes where
  | single (l : Line)
  | multi (ls : List Line)
deriving DecidableEq

/-- An extracted contour: the length of its shapely `bounds` tuple (0 for
an empty geometry, 4 otherwise) and its intersection with the burn unit. -/
structure ContourC where
  boundsLen : ℕ
  intersect : IntersectRes
deriving DecidableEq

/-- Length of `line.bounds` for a modelled `LineString`: `()` when the
line is empty, a 4-tuple otherwise. -/
def lineBoundsLen (l : Line) : ℕ :=
  if l.isEmpty then 0 else 4

/-- Normalisation performed by the source: a `LineString` intersection
becomes a one-element list, a `MultiLineString` becomes `list(geoms)`. -/
def lineList : IntersectRes → List Line
  | .single l => [l]
  | .multi ls => ls

/-- Loop body of the heat-grouping loop of `CostDistance.iterate`: state
is `(heats, heat_set, current_heat)`, the item is `(i, contour)` from
`enumerate(contours)`. -/
def groupStep (num_igniters : ℕ)
    (st : List (List ContourC) × List ContourC × ℕ) (ic : ℕ × ContourC) :
    List (List ContourC) × List ContourC × ℕ :=
  let (heats, heat_set, current_heat) := st
  let (i, contour) := ic
  if current_heat < i / num_igniters then
    -- boundary: append the finished heat_set, reset, then append contour
    (heats ++ [heat_set], [contour], i / num_igniters)
  else
    (heats, heat_set ++ [contour], current_heat)

/-- Embedding of the heat-grouping loop of `CostDistance.iterate` (lines
354-364). -/
def groupState (num_igniters : ℕ) (contours : List ContourC) :
    List (List ContourC) × List ContourC × ℕ :=
  contours.enum.foldl (groupStep num_igniters) ([], [], 0)

/-- The `heats` list the source iterates over afterwards; the final
`heat_set` is left behind by the loop and never appended. -/
def heatsOf (num_igniters : ℕ) (contours : List ContourC) : List (List ContourC) :=
  (groupState num_igniters contours).1

/-- One emitted path record of `CostDistance.iterate`. -/
structure Emitted where
  heat : ℕ
  igniter : ℕ
  leg : ℕ
  geometry : Line
deriving DecidableEq

/-- Innermost loop body of the emission loop: `for leg, line_ in
enumerate(line_list)`, appending a path record when `len(line_.bounds) > 1`. -/
def legStep (i j : ℕ) (acc : List Emitted) (ll : ℕ × Line) : List Emitted :=
  if 1 < lineBoundsLen ll.2 then acc ++ [⟨i, j, ll.1, ll.2⟩] else acc

/-- Middle loop body of the emission loop: `for j, path in enumerate(heat)`,
clipping the contour to the burn unit and expanding multipart
intersections into legs. -/
def pathStep (i : ℕ) (acc : List Emitted) (jp : ℕ × ContourC) : List Emitted :=
  let j := jp.1
  let path := jp.2
  if 0 < path.boundsLen then
    let line_list := lineList path.intersect
    if 0 < line_list.length then line_list.enum.foldl (legStep i j) acc
    else acc
  else acc

/-- Outer loop body of the emission loop: `for i, heat in enumerate(heats)`. -/
def heatStep (acc : List Emitted) (ih : ℕ × List ContourC) : List Emitted :=
  ih.2.enum.foldl (pathStep ih.1) acc

/-- Embedding of the emission loop of `CostDistance.iterate` (lines
366-383): clip each grouped contour, expand multipart intersections into
legs, and record `(heat, igniter, leg, geometry)`. -/
def iterateEmit (num_igniters : ℕ) (contours : List ContourC) : List Emitted :=
  (heatsOf num_igniters contours).enum.foldl heatStep []

/-! ### Characterisation of the grouping loop

The grouping fold is shown to produce exactly the complete `N`-element
chunks of the contour list that precede the last boundary crossing: the
final `heat_set` (holding the contours from index
`N * ((M - 1) / N)` on, `M` the number of contours) is never appended to
`heats`. -/

theorem groupState_snoc (N : ℕ) (cs : List ContourC) (c : ContourC) :
    groupState N (cs ++ [c]) = groupStep N (groupState N cs) (cs.length, c) := by
  unfold groupState
  rw [List.enum_append, List.enumFrom_singleton, List.foldl_append]
  rfl

theorem chunk_stable {α : Type} (cs : List α) (c : α) (n N : ℕ)
    (h : n + N ≤ cs.length) :
    ((cs ++ [c]).drop n).take N = (cs.drop n).take N := by
  rw [List.drop_append_of_le_length (by omega),
    List.take_append_of_le_length (by simp only [List.length_drop]; omega)]

theorem div_pred_mul (N t : ℕ) (hN : 1 ≤ N) (ht : 1 ≤ t) (hdvd : N ∣ t) :
    N * ((t - 1) / N) = t - N := by
  obtain ⟨m, rfl⟩ := hdvd
  have hm : 1 ≤ m := by
    rcases Nat.eq_zero_or_pos m with h0 | h1
    · subst h0; omega
    · exact h1
  have hNm : N ≤ N * m := Nat.le_mul_of_pos_right N hm
  have hdiv : (N * m - 1) / N = m - 1 := by
    apply Nat.div_eq_of_lt_le
    · have h1 : (m - 1) * N = N * m - N := by
        rw [Nat.sub_mul, one_mul, mul_comm m N]
      omega
    · have h2 : (m - 1 + 1) * N = N * m := by
        rw [Nat.sub_add_cancel hm, mul_comm]
      omega
  rw [hdiv, Nat.mul_sub, mul_one]

theorem chunk_bound (N t g : ℕ) (hg : g < (t - 1) / N) : g * N + N ≤ t - 1 := by
  have h2 : (g + 1) * N ≤ ((t - 1) / N) * N := Nat.mul_le_mul_right N hg
  have h3 : ((t - 1) / N) * N ≤ t - 1 := Nat.div_mul_le_self _ _
  have h4 : (g + 1) * N = g * N + N := by ring
  omega

theorem groupState_eq (N : ℕ) (hN : 1 ≤ N) :
    ∀ cs : List ContourC, cs ≠ [] →
    groupState N cs =
      ((List.range ((cs.length - 1) / N)).map (fun g => (cs.drop (g * N)).take N),
       cs.drop (N * ((cs.length - 1) / N)),
       (cs.length - 1) / N) := by
  intro cs
  induction cs using List.reverseRecOn with
  | nil => intro h; exact absurd rfl h
  | append_singleton cs c ih =>
    intro _
    rw [groupState_snoc]
    by_cases hcs : cs = []
    · subst hcs
      simp [groupState, groupStep, Nat.div_eq_of_lt (show 0 < N by omega)]
    · rw [ih hcs]
      have hlen : 1 ≤ cs.length := List.length_pos.mpr hcs
      have hsucc : cs.length / N = (cs.length - 1) / N + if N ∣ cs.length then 1 else 0 := by
        have := Nat.succ_div (cs.length - 1) N
        rwa [Nat.sub_add_cancel hlen] at this
      have hlen3 : (cs ++ [c]).length - 1 = cs.length := by simp
      by_cases hdvd : N ∣ cs.length
      · -- boundary step: N divides the current index cs.length
        have hq : cs.length / N = (cs.length - 1) / N + 1 := by rw [hsucc, if_pos hdvd]
        have hNt := div_pred_mul N cs.length hN hlen hdvd
        have hNle : N ≤ cs.length := Nat.le_of_dvd (by omega) hdvd
        simp only [groupStep]
        rw [if_pos (by omega), hlen3, hq]
        simp only [Prod.mk.injEq]
        refine ⟨?_, ?_, trivial⟩
        · rw [List.range_succ, List.map_append, List.map_singleton]
          refine congrArg₂ _ (List.map_congr_left ?_) (congrArg (fun l => [l]) ?_)
          · intro g hg
            rw [List.mem_range] at hg
            have hgN := chunk_bound N cs.length g hg
            exact (chunk_stable cs c (g * N) N (by omega)).symm
          · -- the freshly completed chunk equals the old heat_set
            rw [mul_comm ((cs.length - 1) / N) N, hNt,
              List.drop_append_of_le_length (by omega)]
            have hdl : (cs.drop (cs.length - N)).length = N := by
              rw [List.length_drop]; omega
            rw [List.take_append_of_le_length (by rw [hdl]),
              List.take_of_length_le (by rw [hdl])]
        · have hNfull : N * ((cs.length - 1) / N + 1) = cs.length := by
            rw [Nat.mul_add, hNt, mul_one]; omega
          rw [hNfull, show cs.length = cs.length + 0 from rfl, List.drop_append,
            List.drop_zero]
      · -- non-boundary step
        have hq : cs.length / N = (cs.length - 1) / N := by rw [hsucc, if_neg hdvd]; omega
        simp only [groupStep]
        rw [if_neg (by omega), hlen3, hq]
        simp only [Prod.mk.injEq]
        refine ⟨?_, ?_, trivial⟩
        · refine (List.map_congr_left ?_).symm
          intro g hg
          rw [List.mem_range] at hg
          have hgN := chunk_bound N cs.length g hg
          exact chunk_stable cs c (g * N) N (by omega)
        · have hle : N * ((cs.length - 1) / N) ≤ cs.length - 1 := by
            rw [mul_comm]; exact Nat.div_mul_le_self _ _
          rw [List.drop_append_of_le_length (by omega)]

theorem heatsOf_eq (N : ℕ) (hN : 1 ≤ N) (cs : List ContourC) (hcs : cs ≠ []) :
    heatsOf N cs =
      (List.range ((cs.length - 1) / N)).map (fun g => (cs.drop (g * N)).take N) := by
  unfold heatsOf
  rw [groupState_eq N hN cs hcs]

/-! ### Flattened form of the emission loop -/

/-- Specification form of the innermost emission loop. -/
def legsSpec (i j : ℕ) (ll : List Line) : List Emitted :=
  ll.enum.flatMap (fun p => if 1 < lineBoundsLen p.2 then [⟨i, j, p.1, p.2⟩] else [])

/-- Specification form of the per-contour emission. -/
def pathSpec (i : ℕ) (jp : ℕ × ContourC) : List Emitted :=
  if 0 < jp.2.boundsLen then
    if 0 < (lineList jp.2.intersect).length then
      legsSpec i jp.1 (lineList jp.2.intersect)
    else []
  else []

/-- Specification form of the per-heat emission. -/
def heatSpec (ih : ℕ × List ContourC) : List Emitted :=
  ih.2.enum.flatMap (pathSpec ih.1)

theorem legFold_eq (i j : ℕ) :
    ∀ (l : List (ℕ × Line)) (acc : List Emitted),
      l.foldl (legStep i j) acc =
        acc ++ l.flatMap (fun p => if 1 < lineBoundsLen p.2 then [⟨i, j, p.1, p.2⟩] else []) := by
  intro l
  induction l with
  | nil => intro acc; simp
  | cons x xs ih =>
    intro acc
    rw [List.foldl_cons, ih, List.flatMap_cons]
    unfold legStep
    split <;> simp

theorem pathFold_eq (i : ℕ) :
    ∀ (l : List (ℕ × ContourC)) (acc : List Emitted),
      l.foldl (pathStep i) acc = acc ++ l.flatMap (pathSpec i) := by
  intro l
  induction l with
  | nil => intro acc; simp
  | cons x xs ih =>
    intro acc
    rw [List.foldl_cons, ih, List.flatMap_cons]
    simp only [pathStep, pathSpec]
    split_ifs with h1 h2
    · rw [legFold_eq]
      unfold legsSpec
      simp
    · simp
    · simp

theorem heatFold_eq :
    ∀ (l : List (ℕ × List ContourC)) (acc : List Emitted),
      l.foldl heatStep acc = acc ++ l.flatMap heatSpec := by
  intro l
  induction l with
  | nil => intro acc; simp
  | cons x xs ih =>
    intro acc
    rw [List.foldl_cons, ih, List.flatMap_cons]
    unfold heatStep heatSpec
    rw [pathFold_eq]
    simp

theorem iterateEmit_eq (N : ℕ) (cs : List ContourC) :
    iterateEmit N cs = (heatsOf N cs).enum.flatMap heatSpec := by
  unfold iterateEmit
  rw [heatFold_eq]
  simp

/-- C8 amended: every emitted record corresponds to the contour at index
`m = heat * N + igniter` with `heat = m / N`, `igniter = m mod N`, and its
geometry is the sub-part at position `leg` of the contour's intersection
with the burn unit — but only contour indices
`m < N * ((M - 1) / N)` (`M` the number of extracted contours) are ever
emitted: the trailing group held in `heat_set` when the loop ends is never
appended to `heats`, so its contours are dropped even if they intersect
the burn unit in a line. -/
theorem iterateEmit_char (N : ℕ) (hN : 1 ≤ N) (cs : List ContourC) :
    ∀ e ∈ iterateEmit N cs,
      e.igniter < N ∧
      e.heat * N + e.igniter < N * ((cs.length - 1) / N) ∧
      e.heat = (e.heat * N + e.igniter) / N ∧
      e.igniter = (e.heat * N + e.igniter) % N ∧
      ∃ c, cs[e.heat * N + e.igniter]? = some c ∧ 0 < c.boundsLen ∧
        (lineList c.intersect)[e.leg]? = some e.geometry := by
  intro e he
  rw [iterateEmit_eq, List.mem_flatMap] at he
  obtain ⟨⟨i, heat⟩, hih, he⟩ := he
  by_cases hcs : cs = []
  · subst hcs; simp [heatsOf, groupState] at hih
  rw [heatsOf_eq N hN cs hcs, List.mem_enum_iff_getElem?] at hih
  simp only [List.getElem?_map] at hih
  obtain ⟨g, hg, hfg⟩ := Option.map_eq_some'.mp hih
  have hilt : i < (cs.length - 1) / N := by
    by_contra hge
    rw [List.getElem?_eq_none (by simpa using Nat.le_of_not_lt hge)] at hg
    exact Option.noConfusion hg
  rw [List.getElem?_range hilt] at hg
  obtain rfl : i = g := Option.some.inj hg
  obtain rfl : (cs.drop (i * N)).take N = heat := hfg
  simp only [heatSpec, List.mem_flatMap] at he
  obtain ⟨⟨j, path⟩, hjp, he2⟩ := he
  rw [List.mem_enum_iff_getElem?] at hjp
  have hjlen : j < ((cs.drop (i * N)).take N).length := by
    by_contra hge
    rw [List.getElem?_eq_none (Nat.le_of_not_lt hge)] at hjp
    exact Option.noConfusion hjp
  have hjN : j < N := by
    have := List.length_take N (cs.drop (i * N))
    omega
  have hpath : cs[i * N + j]? = some path := by
    rw [List.getElem?_take, if_pos hjN, List.getElem?_drop] at hjp
    exact hjp
  simp only [pathSpec] at he2
  split_ifs at he2 with h1 h2
  · simp only [legsSpec, List.mem_flatMap] at he2
    obtain ⟨⟨leg, line⟩, hll, hmem⟩ := he2
    rw [List.mem_enum_iff_getElem?] at hll
    split_ifs at hmem with h3
    · rw [List.mem_singleton] at hmem
      subst hmem
      dsimp only
      refine ⟨hjN, ?_, ?_, ?_, path, hpath, h1, hll⟩
      · have e1 : (i + 1) * N = i * N + N := by ring
        have h5 : (i + 1) * N ≤ ((cs.length - 1) / N) * N :=
          Nat.mul_le_mul_right N hilt
        have h6 : ((cs.length - 1) / N) * N = N * ((cs.length - 1) / N) := mul_comm _ _
        omega
      · rw [mul_comm, Nat.mul_add_div (by omega), Nat.div_eq_of_lt hjN, Nat.add_zero]
      · rw [mul_comm, Nat.mul_add_mod, Nat.mod_eq_of_lt hjN]
    · exact absurd hmem (List.not_mem_nil _)
  · exact absurd he2 (List.not_mem_nil _)
  · exact absurd he2 (List.not_mem_nil _)

/-- Witness for `iterateEmit_char`: two contours, one igniter; the single
emitted record points back at contour 0, whose intersection holds its
geometry at leg 0. -/
theorem iterateEmit_char_witness :
    ∃ c, ([⟨4, IntersectRes.single [((0 : ℚ), (0 : ℚ)), (1, 1)]⟩,
           ⟨4, IntersectRes.single [(2, 2), (3, 3)]⟩] : List ContourC)[0]? = some c ∧
      0 < c.boundsLen ∧
      (lineList c.intersect)[0]? = some [((0 : ℚ), (0 : ℚ)), (1, 1)] := by
  have h := iterateEmit_char 1 (by norm_num)
    [⟨4, IntersectRes.single [((0 : ℚ), (0 : ℚ)), (1, 1)]⟩,
     ⟨4, IntersectRes.single [(2, 2), (3, 3)]⟩]
    ⟨0, 0, 0, [(0, 0), (1, 1)]⟩ (by decide)
  obtain ⟨-, -, -, -, c, hc, hb, hl⟩ := h
  exact ⟨c, hc, hb, hl⟩

/-- C8 counterexample: with one igniter and three contours, each
intersecting the burn unit in a (non-degenerate) line, only the first two
contours are emitted; the final contour (index 2) never appears in the
output, although the claim says it is emitted with `heat = 2`,
`igniter = 0`.  The final `heat_set` of the grouping loop is never
appended to `heats`. -/
theorem last_contour_dropped :
    iterateEmit 1
        [⟨4, .single [(0, 0), (1, 0)]⟩, ⟨4, .single [(0, 1), (1, 1)]⟩,
         ⟨4, .single [(0, 2), (1, 2)]⟩] =
      [⟨0, 0, 0, [(0, 0), (1, 0)]⟩, ⟨1, 0, 0, [(0, 1), (1, 1)]⟩] ∧
    ∀ e ∈ iterateEmit 1
        [⟨4, .single [(0, 0), (1, 0)]⟩, ⟨4, .single [(0, 1), (1, 1)]⟩,
         ⟨4, .single [(0, 2), (1, 2)]⟩],
      e.geometry ≠ [((0 : ℚ), (2 : ℚ)), (1, 2)] := by
  constructor
  · decide
  · decide

/-- C9: no polyline is ever reversed.  Every geometry emitted by
`CostDistance.iterate` is literally a member of some contour's
intersection line list, whatever the heat parity: `strip_contour.py`
contains no reversal at all (and `iterate` does not even receive the
`side` argument; in the `contour.py` draft the reversal lines are
commented out), contradicting the `StripContour` docstring which promises
that heats alternate their starting side. -/
theorem iterateEmit_no_reversal (N : ℕ) (hN : 1 ≤ N) (cs : List ContourC) :
    ∀ e ∈ iterateEmit N cs, ∃ c ∈ cs, e.geometry ∈ lineList c.intersect := by
  intro e he
  rw [iterateEmit_eq, List.mem_flatMap] at he
  obtain ⟨⟨i, heat⟩, hih, he⟩ := he
  by_cases hcs : cs = []
  · subst hcs; simp [heatsOf, groupState] at hih
  rw [heatsOf_eq N hN cs hcs, List.mem_enum_iff_getElem?] at hih
  simp only [List.getElem?_map] at hih
  obtain ⟨g, hg, hfg⟩ := Option.map_eq_some'.mp hih
  have hsub : ∀ c ∈ heat, c ∈ cs := by
    intro c hc
    rw [← hfg] at hc
    exact List.mem_of_mem_drop (List.mem_of_mem_take hc)
  simp only [heatSpec, List.mem_flatMap] at he
  obtain ⟨⟨j, path⟩, hjp, he2⟩ := he
  rw [List.mem_enum_iff_getElem?] at hjp
  have hpath : path ∈ heat := List.getElem?_mem hjp
  simp only [pathSpec] at he2
  split_ifs at he2 with h1 h2
  · simp only [legsSpec, List.mem_flatMap] at he2
    obtain ⟨⟨leg, line⟩, hll, hmem⟩ := he2
    rw [List.mem_enum_iff_getElem?] at hll
    split_ifs at hmem with h3
    · rw [List.mem_singleton] at hmem
      subst hmem
      exact ⟨path, hsub path hpath, List.getElem?_mem hll⟩
    · exact absurd hmem (List.not_mem_nil _)
  · exact absurd he2 (List.not_mem_nil _)
  · exact absurd he2 (List.not_mem_nil _)

/-- Witness for `iterateEmit_no_reversal`: a three-contour input whose
heat-1 output record carries the second contour's intersection line in
its original (unreversed) orientation. -/
theorem iterateEmit_no_reversal_witness :
    ∃ c ∈ ([⟨4, IntersectRes.single [((5 : ℚ), (6 : ℚ)), (7, 8)]⟩,
            ⟨4, IntersectRes.single [(1, 2), (3, 4)]⟩,
            ⟨4, IntersectRes.single [(9, 9), (9, 10)]⟩] : List ContourC),
      ([((1 : ℚ), (2 : ℚ)), (3, 4)] : Line) ∈ lineList c.intersect :=
  iterateEmit_no_reversal 1 (by norm_num) _ ⟨1, 0, 0, [(1, 2), (3, 4)]⟩ (by decide)

end Contour

/-! ## `pattern.TemporalPropagator`

Embedding of the temporal propagator (pattern.py lines 336-731).  Path
geometries are opaque values of a type `G`; the shapely/numpy query
functions the source invokes on them (`length`, `distance`, `coords`,
`interpolate`) are supplied as a `GeomOps` record, since those libraries
are external collaborators.  Times and coordinates are idealised as `ℝ`.
Python-float divisions raise `ZeroDivisionError`; numpy divisions (inside
`_get_offset`, `_lines`, `_dashes`, `_dots`, where the operands are numpy
scalars) do not raise and are rendered with plain real division.  A pandas
reduction over an empty selection yields `NaN`, rendered as the pseudo
error `nanResult`. -/

namespace Pattern

/-- Geometry operations supplied by the external shapely/numpy layer. -/
structure GeomOps (G : Type) where
  length : G → ℝ
  distance : G → G → ℝ
  coords : G → List (ℝ × ℝ)
  interpolate : G → ℝ → ℝ × ℝ

/-- One row of the propagator's path DataFrame after the `start_time`,
`end_time` columns are initialised to `0`. -/
structure PathRow (G : Type) where
  heat : ℕ
  igniter : ℕ
  leg : ℕ
  geometry : G
  start_time : ℝ
  end_time : ℝ

/-- Euclidean norm of a 2-vector (`np.linalg.norm`). -/
noncomputable def npNormV (v : ℝ × ℝ) : ℝ := Real.sqrt (v.1 ^ 2 + v.2 ^ 2)

/-- Distance between two coordinates (`np.linalg.norm(xy - next_xy)`). -/
noncomputable def npNorm (p q : ℝ × ℝ) : ℝ := npNormV (p.1 - q.1, p.2 - q.2)

/-- Python float division over `ℝ`. -/
noncomputable def pyDivR (a b : ℝ) : Except PyErr ℝ :=
  if b = 0 then .error .zeroDivisionError else .ok (a / b)

/-- First element of a pandas selection (`.iloc[0]` / `.values[0]`). -/
def headE {α : Type} : List α → Except PyErr α
  | [] => .error .indexError
  | a :: _ => .ok a

/-- Maximum of a pandas numeric column; empty selections give `NaN`,
which poisons all later results and is modelled as `nanResult`. -/
noncomputable def maxE (l : List ℝ) : Except PyErr ℝ :=
  match l.max? with
  | some m => .ok m
  | Option.none => .error .nanResult

/-- Reading `self.ignition_crew[j].velocity` for the current path. -/
def crewVelocity (crew : List PyObj) (j : ℕ) : Except PyErr ℝ := do
  let ig ← pyIndex crew j
  let v ← pyGetAttr ig "velocity"
  let q ← pyNum v
  pure (q : ℝ)

/-- Embedding of `TemporalPropagator._get_offset` (lines 513-556): the
projection of the vector between the igniters' first coordinates onto the
previous igniter's initial direction, plus the stagger spacing, divided
by the velocity.  The divisions are numpy divisions (no exception; a
zero-length direction vector yields numpy `nan`/`inf`, outside this
model). -/
noncomputable def getOffset {G : Type} (ops : GeomOps G)
    (prev_igniter cur_igniter : PathRow G) (spacing velocity : ℝ) :
    Except PyErr ℝ := do
  let cur_first ← pyIndex (ops.coords cur_igniter.geometry) 0
  let prev_first ← pyIndex (ops.coords prev_igniter.geometry) 0
  let prev_second ← pyIndex (ops.coords prev_igniter.geometry) 1
  let a_vec := (cur_first.1 - prev_first.1, cur_first.2 - prev_first.2)
  let b_vec := (prev_second.1 - prev_first.1, prev_second.2 - prev_first.2)
  let nb := npNormV b_vec
  let offset_distance := a_vec.1 * (b_vec.1 / nb) + a_vec.2 * (b_vec.2 / nb)
  pure ((spacing + offset_distance) / velocity)

/-- Embedding of one iteration of the `_init_path_time` loop (lines
411-503) at row position `p` of the sorted DataFrame: compute the row's
start and end time from the current state and write the row back. -/
noncomputable def initStep {G : Type} (ops : GeomOps G) (crew : List PyObj)
    (spacing time_offset_heat : ℝ) (return_trip : Bool)
    (rows : List (PathRow G)) (p : ℕ) : Except PyErr (List (PathRow G)) := do
  let path ← pyIndex rows p
  let i := path.heat
  let j := path.igniter
  let k := path.leg
  let velocity ← crewVelocity crew j
  let start ←
    if k ≠ 0 then do
      -- non-first leg: previous leg's end time plus travel time between legs
      let prev_leg := rows.filter
        (fun r => r.heat == i && r.igniter == j && r.leg == k - 1)
      let prev ← headE prev_leg
      let t ← pyDivR (ops.distance prev.geometry path.geometry) velocity
      pure (prev.end_time + t)
    else if i ≠ 0 ∧ j = 0 then do
      -- first igniter of a non-first heat: max end time of the previous heat
      let prev_heat := rows.filter (fun r => r.heat == i - 1)
      let m ← maxE (prev_heat.map (·.end_time))
      if return_trip then do
        let t ← pyDivR (ops.length path.geometry) velocity
        pure (m + t)
      else
        pure m
    else if j ≠ 0 then do
      -- non-first igniter of a heat: previous igniter's start plus offset
      let cur_igniter := rows.filter (fun r => r.heat == i && r.igniter == j)
      let prev_igniter := rows.filter (fun r => r.heat == i && r.igniter == j - 1)
      let cur ← headE cur_igniter
      let prev ← headE prev_igniter
      let off ← getOffset ops prev cur spacing velocity
      pure (prev.start_time + off)
    else
      -- first igniter of the first heat
      pure 0
  -- apply the heat delay to every non-first heat
  let start := if 0 < i then start + time_offset_heat else start
  -- end time: start time plus seconds along the path
  let t ← pyDivR (ops.length path.geometry) velocity
  pure (rows.set p { path with start_time := start, end_time := start + t })

/-- Embedding of the final shift of `_init_path_time` (lines 505-511):
subtract the minimum start time from all start and end times whenever it
is non-zero. -/
noncomputable def initShift {G : Type} (rows : List (PathRow G)) : List (PathRow G) :=
  match (rows.map (·.start_time)).min? with
  | some m =>
      if m ≠ 0 then
        rows.map (fun r =>
          { r with start_time := r.start_time - m, end_time := r.end_time - m })
      else rows
  | Option.none => rows

/-- Embedding of `TemporalPropagator._init_path_time` over the sorted
row list. -/
noncomputable def initPathTime {G : Type} (ops : GeomOps G) (crew : List PyObj)
    (spacing time_offset_heat : ℝ) (return_trip : Bool)
    (rows : List (PathRow G)) : Except PyErr (List (PathRow G)) := do
  let n := rows.length
  let rows ← (List.range n).foldlM
    (initStep ops crew spacing time_offset_heat return_trip) rows
  pure (initShift rows)

/-- Unique heat indices in ascending order
(`np.sort(self.paths.heat.unique())`). -/
def sortedHeats {G : Type} (rows : List (PathRow G)) : List ℕ :=
  ((rows.map (·.heat)).dedup).mergeSort (· ≤ ·)

/-- Embedding of one iteration of `_sync_end_time` (lines 565-579) for
heat `i`: shift every row of the heat so that it ends at the heat's
maximum end time, and write the heat back through the boolean mask. -/
noncomputable def syncStep {G : Type} (rows : List (PathRow G)) (i : ℕ) :
    List (PathRow G) :=
  let cur_heat := rows.filter (fun r => r.heat == i)
  match (cur_heat.map (·.end_time)).max? with
  | some max_end =>
      rows.map (fun r =>
        if r.heat == i then
          { r with start_time := r.start_time + (max_end - r.end_time),
                   end_time := max_end }
        else r)
  | Option.none => rows

/-- Embedding of `TemporalPropagator._sync_end_time` (lines 558-579). -/
noncomputable def syncEndTime {G : Type} (rows : List (PathRow G)) :
    List (PathRow G) :=
  (sortedHeats rows).foldl syncStep rows

/-- Per-path arrival times: scalars for solid lines and dots, start/end
pairs for dashes. -/
inductive TimesOut where
  | scalars (ts : List ℝ)
  | pairs (ps : List (ℝ × ℝ))

/-- Geometry column after `_compute_arrival_times`: unchanged for solid
lines, a multipart line of dash segments for dashes, a multipoint for
dots. -/
inductive GeomOut (G : Type) where
  | orig (g : G)
  | multiLine (segs : List (List (ℝ × ℝ)))
  | multiPoint (pts : List (ℝ × ℝ))

/-- A fully timed path row. -/
structure TimedRow (G : Type) where
  heat : ℕ
  igniter : ℕ
  leg : ℕ
  times : TimesOut
  geometry : GeomOut G

/-- Cumulative arrival times along a coordinate sequence: each vertex
after the first adds `segment_length / velocity` (loop bodies of `_lines`
and `_dots`). -/
noncomputable def walkTimes (velocity : ℝ) : List (ℝ × ℝ) → ℝ → List ℝ
  | xy :: next :: rest, t =>
      let t2 := t + npNorm xy next / velocity
      t2 :: walkTimes velocity (next :: rest) t2
  | _, _ => []

/-- Embedding of `TemporalPropagator._lines` (lines 597-624). -/
noncomputable def linesFn {G : Type} (ops : GeomOps G) (path : PathRow G)
    (velocity : ℝ) : TimedRow G :=
  ⟨path.heat, path.igniter, path.leg,
   .scalars (path.start_time ::
     walkTimes velocity (ops.coords path.geometry) path.start_time),
   .orig path.geometry⟩

/-- Embedding of `np.arange(0, stop, step)` for the dash/dot distance
grids (`np.arange` raises `ZeroDivisionError` on a zero step). -/
noncomputable def npArange (stop step : ℝ) : Except PyErr (List ℝ) :=
  if step = 0 then .error .zeroDivisionError
  else if step < 0 then .ok []
  else .ok ((List.range ⌈stop / step⌉₊).map (fun n => (n : ℝ) * step))

/-- Embedding of the `while sum_length < path.geometry.length` loop of
`_dashes` (lines 640-649), alternating dash and gap increments, with an
explicit fuel bound (the Python loop does not terminate when both
increments fail to advance). -/
noncomputable def dashDistances (dash gap total : ℝ) :
    ℕ → ℝ → Bool → Except PyErr (List ℝ)
  | 0, sum_length, _ =>
      if sum_length < total then .error .fuelExhausted else .ok []
  | fuel + 1, sum_length, toggle =>
      if sum_length < total then do
        let rest ← dashDistances dash gap total fuel
          (sum_length + if toggle then dash else gap) (!toggle)
        pure (sum_length :: rest)
      else .ok []

/-- Embedding of the dash-segment loop of `_dashes` (lines 662-686): walk
adjacent interpolated points, toggling the `fire` boolean, and record a
`[start, end]` time pair and a two-point segment for each active dash. -/
noncomputable def dashLoop (velocity : ℝ) :
    List (ℝ × ℝ) → Bool → ℝ → List (ℝ × ℝ) × List (List (ℝ × ℝ))
  | xy :: next :: rest, fire, start_time =>
      let meters := npNorm xy next
      let end_time := start_time + meters / velocity
      let (ts, segs) := dashLoop velocity (next :: rest) (!fire) end_time
      if fire then ((start_time, end_time) :: ts, [xy, next] :: segs)
      else (ts, segs)
  | _, _, _ => ([], [])

/-- Embedding of `TemporalPropagator._dashes` (lines 626-692): the
interpolation distances come either from `np.arange` (falsy
`gap_length`) or from the alternating while loop; the path's geometry is
rewritten as the multipart line of the dash segments. -/
noncomputable def dashesFn {G : Type} (ops : GeomOps G) (path : PathRow G)
    (velocity : ℝ) (gap_length dash_length : PyVal) (fuel : ℕ) :
    Except PyErr (TimedRow G) := do
  let distances ←
    if ¬ pyTruthy gap_length then do
      let d ← pyNum dash_length
      npArange (ops.length path.geometry) (d : ℝ)
    else do
      let d ← pyNum dash_length
      let g ← pyNum gap_length
      dashDistances (d : ℝ) (g : ℝ) (ops.length path.geometry) fuel 0 true
  let points := distances.map (ops.interpolate path.geometry)
  let out := dashLoop velocity points true path.start_time
  pure ⟨path.heat, path.igniter, path.leg, .pairs out.1, .multiLine out.2⟩

/-- Embedding of `TemporalPropagator._dots` (lines 694-730): interpolate
points every `gap_length` meters and time them like a solid line; the
geometry is rewritten as the multipoint. -/
noncomputable def dotsFn {G : Type} (ops : GeomOps G) (path : PathRow G)
    (velocity : ℝ) (gap_length : PyVal) : Except PyErr (TimedRow G) := do
  let g ← pyNum gap_length
  let distances ← npArange (ops.length path.geometry) (g : ℝ)
  let points := distances.map (ops.interpolate path.geometry)
  pure ⟨path.heat, path.igniter, path.leg,
        .scalars (path.start_time :: walkTimes velocity points path.start_time),
        .multiPoint points⟩

/-- Embedding of the per-row dispatch of
`TemporalPropagator._compute_arrival_times` (lines 581-595): read the
current igniter's `gap_length` and `dash_length` attributes (with
Python's short-circuit `and`) and dispatch to `_lines`, `_dashes` or
`_dots`. -/
noncomputable def arrivalStep {G : Type} (ops : GeomOps G) (crew : List PyObj)
    (fuel : ℕ) (path : PathRow G) : Except PyErr (TimedRow G) := do
  let cur_igniter ← pyIndex crew path.igniter
  let gap ← pyGetAttr cur_igniter "gap_length"
  let is_solid ←
    if gap = PyVal.none then do
      let dash ← pyGetAttr cur_igniter "dash_length"
      pure (dash == PyVal.none)
    else
      pure false
  if is_solid then do
    let v ← pyGetAttr cur_igniter "velocity"
    let q ← pyNum v
    pure (linesFn ops path (q : ℝ))
  else do
    let dash ← pyGetAttr cur_igniter "dash_length"
    if dash ≠ PyVal.none then do
      let v ← pyGetAttr cur_igniter "velocity"
      let q ← pyNum v
      dashesFn ops path (q : ℝ) gap dash fuel
    else do
      let v ← pyGetAttr cur_igniter "velocity"
      let q ← pyNum v
      dotsFn ops path (q : ℝ) gap

/-- Embedding of `TemporalPropagator._compute_arrival_times` over the
sorted rows. -/
noncomputable def computeArrivalTimes {G : Type} (ops : GeomOps G)
    (crew : List PyObj) (fuel : ℕ) (rows : List (PathRow G)) :
    Except PyErr (List (TimedRow G)) :=
  rows.mapM (arrivalStep ops crew fuel)

/-! ### C3: the personnel igniters lack the attributes the propagator reads -/

/-- Igniters built by `personnel.Igniter.__init__` have no `gap_length`
attribute: the constructor assigns only `velocity`, `interval_units` and
`interval`, so reading `gap_length` raises `AttributeError`. -/
theorem igniterInit_no_gap (v i : ℚ) (u : String) (ig : PyObj)
    (h : Personnel.igniterInit v i u = .ok ig) :
    pyGetAttr ig "gap_length" = .error (.attributeError "gap_length") := by
  unfold Personnel.igniterInit at h
  split_ifs at h with h1 h2
  · simp only [pure, Except.pure, Except.ok.injEq] at h
    subst h; rfl
  · unfold pyDiv at h
    by_cases h3 : v = 0
    · rw [if_pos h3] at h
      simp only [bind, Except.bind] at h
      exact Except.noConfusion h
    · rw [if_neg h3] at h
      simp only [bind, Except.bind] at h
      rw [if_neg (div_ne_zero h1 h3)] at h
      simp only [pure, Except.pure, Except.ok.injEq] at h
      subst h; rfl
  · unfold pyDiv at h
    rw [if_neg h1] at h
    simp only [bind, Except.bind, pure, Except.pure, Except.ok.injEq] at h
    subst h; rfl

/-- C3: with a crew of igniters constructed by the personnel module, the
propagator's `_compute_arrival_times` raises
`AttributeError("gap_length")` on the very first path instead of
producing timed paths: the dispatch reads `cur_igniter.gap_length`, which
no personnel igniter defines.  `forward` calls `_compute_arrival_times`
after the timing passes, so the whole `forward` call raises. -/
theorem computeArrivalTimes_attribute_error {G : Type} (ops : GeomOps G)
    (crew : List PyObj) (rows : List (PathRow G)) (fuel : ℕ) (r₀ : PathRow G)
    (hne : rows.head? = some r₀) (hidx : r₀.igniter < crew.length)
    (hcrew : ∀ ig ∈ crew, ∃ v i u, Personnel.igniterInit v i u = .ok ig) :
    computeArrivalTimes ops crew fuel rows =
      .error (.attributeError "gap_length") := by
  obtain ⟨r, rest, rfl⟩ : ∃ r rest, rows = r :: rest := by
    cases rows with
    | nil => simp at hne
    | cons r rest => exact ⟨r, rest, rfl⟩
  obtain rfl : r = r₀ := by simpa using hne
  obtain ⟨ig, hig⟩ : ∃ ig, crew.get? r.igniter = some ig := by
    rw [List.get?_eq_getElem?]
    exact ⟨_, List.getElem?_eq_getElem hidx⟩
  have higmem : ig ∈ crew := by
    rw [List.get?_eq_getElem?] at hig
    exact List.getElem?_mem hig
  obtain ⟨v, i, u, hinit⟩ := hcrew ig higmem
  have hgap := igniterInit_no_gap v i u ig hinit
  unfold computeArrivalTimes
  rw [List.mapM_cons]
  unfold arrivalStep pyIndex
  rw [hig]
  dsimp only [bind, Except.bind]
  rw [hgap]

/-- Witness for `computeArrivalTimes_attribute_error`: one path, one
personnel igniter (velocity 1, interval 0). -/
theorem computeArrivalTimes_attribute_error_witness :
    computeArrivalTimes
        (⟨fun _ => 0, fun _ _ => 0, fun _ => [], fun _ _ => (0, 0)⟩ : GeomOps Unit)
        [[("velocity", PyVal.num 1), ("interval_units", PyVal.str "meters"),
          ("interval", PyVal.num 0)]] 0
        [⟨0, 0, 0, (), 0, 0⟩] =
      .error (.attributeError "gap_length") :=
  computeArrivalTimes_attribute_error _ _ _ 0 ⟨0, 0, 0, (), 0, 0⟩ rfl
    (by norm_num)
    (by
      intro ig hig
      simp only [List.mem_singleton] at hig
      exact ⟨1, 0, "meters", by rw [hig]; rfl⟩)

/-! ### C7: dash decomposition on a straight 100 m path -/

theorem npNorm_horiz (a b y : ℝ) : npNorm (a, y) (b, y) = |a - b| := by
  unfold npNorm npNormV
  simp only [sub_self]
  rw [show ((0:ℝ)) ^ 2 = 0 by norm_num, add_zero, Real.sqrt_sq_eq_abs]

/-- The alternating dash/gap distance grid of scenario S5: dash and gap
both 10 m on a 100 m path give interpolation distances 0,10,...,90. -/
theorem dash_distances_s5 :
    dashDistances ((10 : ℚ) : ℝ) ((10 : ℚ) : ℝ) (100 : ℝ) 20 0 true =
      .ok [0, 10, 20, 30, 40, 50, 60, 70, 80, 90] := by
  norm_num [dashDistances]

/-- The dash pair loop of scenario S5 at velocity 2. -/
theorem dash_loop_s5 :
    dashLoop 2 [((0:ℝ), (0:ℝ)), (10, 0), (20, 0), (30, 0), (40, 0), (50, 0),
        (60, 0), (70, 0), (80, 0), (90, 0)] true 0 =
      ([(0, 5), (10, 15), (20, 25), (30, 35), (40, 45)],
       [[(0, 0), (10, 0)], [(20, 0), (30, 0)], [(40, 0), (50, 0)],
        [(60, 0), (70, 0)], [(80, 0), (90, 0)]]) := by
  norm_num [dashLoop, npNorm_horiz, -Prod.mk_zero_zero]

/-- C7: one igniter at velocity 2 m/s with `dash_length = 10` and
`gap_length = 10` on a straight 100 m path starting at time 0 produces
exactly 5 dash segments with `[start, end]` time pairs
`[0,5], [10,15], [20,25], [30,35], [40,45]`, and the path geometry is
rewritten as the multipart line of those 5 dash segments. -/
theorem dashes_s5 :
    dashesFn (⟨fun _ => 100, fun _ _ => 0, fun _ => [(0, 0), (100, 0)],
        fun _ d => (d, 0)⟩ : GeomOps Unit)
      ⟨0, 0, 0, (), 0, 0⟩ 2 (PyVal.num 10) (PyVal.num 10) 20 =
      .ok ⟨0, 0, 0,
        .pairs [(0, 5), (10, 15), (20, 25), (30, 35), (40, 45)],
        .multiLine [[(0, 0), (10, 0)], [(20, 0), (30, 0)], [(40, 0), (50, 0)],
          [(60, 0), (70, 0)], [(80, 0), (90, 0)]]⟩ := by
  unfold dashesFn
  rw [show pyTruthy (PyVal.num 10) = true from rfl]
  simp only [Bool.not_true, bind, Except.bind, pyNum]
  rw [dash_distances_s5]
  dsimp only
  rw [show List.map (fun d => (d, (0:ℝ)))
        [(0:ℝ), 10, 20, 30, 40, 50, 60, 70, 80, 90] =
      [((0:ℝ), (0:ℝ)), (10, 0), (20, 0), (30, 0), (40, 0), (50, 0),
        (60, 0), (70, 0), (80, 0), (90, 0)] from rfl]
  rw [dash_loop_s5]
  norm_num [pure, Except.pure]

/-! ### C5: end-time synchronisation equalises end times within a heat -/

/-- All rows of heat `h` share one end time. -/
def HeatSynced {G : Type} (h : ℕ) (rs : List (PathRow G)) : Prop :=
  ∀ r1 ∈ rs, ∀ r2 ∈ rs, r1.heat = h → r2.heat = h → r1.end_time = r2.end_time

theorem syncStep_heat {G : Type} (rs : List (PathRow G)) (i : ℕ) :
    ∀ r ∈ syncStep rs i, ∃ r' ∈ rs, r.heat = r'.heat := by
  intro r hr
  unfold syncStep at hr
  dsimp only at hr
  split at hr
  · rw [List.mem_map] at hr
    obtain ⟨r', hr', rfl⟩ := hr
    refine ⟨r', hr', ?_⟩
    split <;> rfl
  · exact ⟨r, hr, rfl⟩

theorem syncStep_mem_end {G : Type} (rs : List (PathRow G)) (i : ℕ) (m : ℝ)
    (hmax : ((rs.filter (fun r => r.heat == i)).map (·.end_time)).max? = some m) :
    ∀ r ∈ syncStep rs i, r.heat = i → r.end_time = m := by
  intro r hr hh
  unfold syncStep at hr
  dsimp only at hr
  rw [hmax] at hr
  rw [List.mem_map] at hr
  obtain ⟨r', hr', rfl⟩ := hr
  by_cases c : (r'.heat == i) = true
  · simp only [c, if_true]
  · simp only [c] at hh ⊢
    rw [if_neg (by simp [c])] at hh
    exact absurd (by simp [hh]) c

theorem syncStep_unchanged_mem {G : Type} (rs : List (PathRow G)) (i h : ℕ)
    (hne : i ≠ h) : ∀ r ∈ syncStep rs i, r.heat = h → r ∈ rs := by
  intro r hr hh
  unfold syncStep at hr
  dsimp only at hr
  split at hr
  · rw [List.mem_map] at hr
    obtain ⟨r', hr', rfl⟩ := hr
    by_cases c : (r'.heat == i) = true
    · rw [if_pos c] at hh ⊢
      exact absurd (by simpa using hh ▸ (beq_iff_eq.mp c)) (by simp_all)
    · rw [if_neg c] at hh ⊢
      exact hr'
  · exact hr

theorem syncStep_synced {G : Type} (rs : List (PathRow G)) (i : ℕ) :
    HeatSynced i (syncStep rs i) := by
  intro r1 h1 r2 h2 hh1 hh2
  cases hmax : ((rs.filter (fun r => r.heat == i)).map (·.end_time)).max? with
  | some m =>
    rw [syncStep_mem_end rs i m hmax r1 h1 hh1,
      syncStep_mem_end rs i m hmax r2 h2 hh2]
  | none =>
    have hempty : rs.filter (fun r => r.heat == i) = [] :=
      List.map_eq_nil_iff.mp (List.max?_eq_none_iff.mp hmax)
    have hstep : syncStep rs i = rs := by
      unfold syncStep
      dsimp only
      rw [hmax]
    rw [hstep] at h1
    have hmem : r1 ∈ rs.filter (fun r => r.heat == i) :=
      List.mem_filter.mpr ⟨h1, by simp [hh1]⟩
    rw [hempty] at hmem
    exact absurd hmem (List.not_mem_nil _)

theorem syncStep_preserve {G : Type} (h i : ℕ) (hne : i ≠ h)
    (rs : List (PathRow G)) (hs : HeatSynced h rs) :
    HeatSynced h (syncStep rs i) := by
  intro r1 h1 r2 h2 hh1 hh2
  exact hs r1 (syncStep_unchanged_mem rs i h hne r1 h1 hh1)
    r2 (syncStep_unchanged_mem rs i h hne r2 h2 hh2) hh1 hh2

theorem syncFold_heat {G : Type} :
    ∀ (l : List ℕ) (rs : List (PathRow G)) (r : PathRow G),
      r ∈ l.foldl syncStep rs → ∃ r' ∈ rs, r.heat = r'.heat := by
  intro l
  induction l with
  | nil => intro rs r hr; exact ⟨r, hr, rfl⟩
  | cons i t ih =>
    intro rs r hr
    rw [List.foldl_cons] at hr
    obtain ⟨r1, hr1, hh⟩ := ih (syncStep rs i) r hr
    obtain ⟨r2, hr2, hh2⟩ := syncStep_heat rs i r1 hr1
    exact ⟨r2, hr2, hh.trans hh2⟩

theorem syncFold_preserve {G : Type} (h : ℕ) :
    ∀ (l : List ℕ), (∀ i ∈ l, i ≠ h) →
      ∀ rs : List (PathRow G), HeatSynced h rs →
        HeatSynced h (l.foldl syncStep rs) := by
  intro l
  induction l with
  | nil => intro _ rs hs; exact hs
  | cons i t ih =>
    intro hne rs hs
    rw [List.foldl_cons]
    exact ih (fun x hx => hne x (List.mem_cons_of_mem i hx))
      (syncStep rs i) (syncStep_preserve h i (hne i (List.mem_cons_self i t)) rs hs)

/-- C5: after `_sync_end_time`, all paths within one heat share exactly
the same end time: each heat is rewritten so that every row's end time
equals the heat's maximum end time, and later heats do not touch rows of
other heats.  (Floating-point tolerance is not needed: equality is
exact.) -/
theorem syncEndTime_synced {G : Type} (rows : List (PathRow G)) :
    ∀ r1 ∈ syncEndTime rows, ∀ r2 ∈ syncEndTime rows,
      r1.heat = r2.heat → r1.end_time = r2.end_time := by
  intro r1 h1 r2 h2 hh
  obtain ⟨r', hr', hh'⟩ := syncFold_heat (sortedHeats rows) rows r1 h1
  have hmem : r1.heat ∈ sortedHeats rows := by
    unfold sortedHeats
    rw [List.mem_mergeSort]
    exact List.mem_dedup.mpr (List.mem_map.mpr ⟨r', hr', hh'.symm⟩)
  have hnodup : (sortedHeats rows).Nodup := by
    unfold sortedHeats
    exact (List.mergeSort_perm _ _).nodup_iff.mpr (List.nodup_dedup _)
  obtain ⟨s, t, hst⟩ := List.append_of_mem hmem
  have hnot : r1.heat ∉ t := by
    rw [hst] at hnodup
    exact (List.nodup_cons.mp (List.Nodup.of_append_right hnodup)).1
  unfold syncEndTime at h1 h2
  rw [hst, List.foldl_append, List.foldl_cons] at h1 h2
  have hsync := syncFold_preserve r1.heat t
    (fun i hi he => hnot (he ▸ hi)) (syncStep (List.foldl syncStep rows s) r1.heat)
    (syncStep_synced (List.foldl syncStep rows s) r1.heat)
  exact hsync r1 h1 r2 h2 rfl hh.symm


theorem sync_concrete :
    syncEndTime [(⟨0, 0, 0, (), 0, 5⟩ : PathRow Unit), ⟨0, 1, 0, (), 1, 21⟩] =
      [⟨0, 0, 0, (), 16, 21⟩, ⟨0, 1, 0, (), 1, 21⟩] := by
  unfold syncEndTime sortedHeats
  rw [show (([(⟨0, 0, 0, (), 0, 5⟩ : PathRow Unit), ⟨0, 1, 0, (), 1, 21⟩].map (·.heat)).dedup).mergeSort (· ≤ ·) = [0] from by
    rw [show [(⟨0, 0, 0, (), 0, 5⟩ : PathRow Unit), ⟨0, 1, 0, (), 1, 21⟩].map (·.heat) = [0, 0] from rfl]
    rw [show ([0, 0] : List ℕ).dedup = [0] from by decide]
    simp]
  rw [List.foldl_cons, List.foldl_nil]
  unfold syncStep
  dsimp only
  rw [show (List.filter (fun r => r.heat == 0) [(⟨0, 0, 0, (), 0, 5⟩ : PathRow Unit), ⟨0, 1, 0, (), 1, 21⟩]) = [(⟨0, 0, 0, (), 0, 5⟩ : PathRow Unit), ⟨0, 1, 0, (), 1, 21⟩] from by simp]
  rw [show (List.map (fun x => x.end_time) [(⟨0, 0, 0, (), 0, 5⟩ : PathRow Unit), ⟨0, 1, 0, (), 1, 21⟩]).max? = some 21 from by
    simp [List.max?]
    norm_num]
  norm_num

/-- Witness for `syncEndTime_synced`: one heat with end times 5 and 21 is
synchronised to a common end time 21. -/
theorem syncEndTime_synced_witness :
    (⟨0, 0, 0, (), 16, 21⟩ : PathRow Unit) ∈
        syncEndTime [(⟨0, 0, 0, (), 0, 5⟩ : PathRow Unit), ⟨0, 1, 0, (), 1, 21⟩] ∧
    (⟨0, 1, 0, (), 1, 21⟩ : PathRow Unit) ∈
        syncEndTime [(⟨0, 0, 0, (), 0, 5⟩ : PathRow Unit), ⟨0, 1, 0, (), 1, 21⟩] ∧
    ((⟨0, 0, 0, (), 16, 21⟩ : PathRow Unit).end_time =
      (⟨0, 1, 0, (), 1, 21⟩ : PathRow Unit).end_time) := by
  refine ⟨?_, ?_, ?_⟩
  · rw [sync_concrete]; exact List.mem_cons_self _ _
  · rw [sync_concrete]; exact List.mem_cons_of_mem _ (List.mem_cons_self _ _)
  · exact syncEndTime_synced _ _ (by rw [sync_concrete]; exact List.mem_cons_self _ _)
      _ (by rw [sync_concrete]; exact List.mem_cons_of_mem _ (List.mem_cons_self _ _)) rfl


/-- Concrete geometry table for the C4 counterexample: path `false` is
5 m long starting at the origin, path `true` is 20 m long starting at
`(1, 0)`. -/
noncomputable def opsC4 : GeomOps Bool :=
  ⟨fun g => if g then 20 else 5, fun _ _ => 0,
   fun g => if g then [(1, 0), (21, 0)] else [(0, 0), (5, 0)], fun _ _ => (0, 0)⟩

/-- A velocity-1 igniter dictionary (as the intended propagator igniters
would carry; the attribute reads used by the timing passes only need
`velocity`). -/
def igC4 : PyObj :=
  [("velocity", PyVal.num 1), ("interval_units", PyVal.str "meters"),
   ("interval", PyVal.num 0)]

noncomputable def rowsC4 : List (PathRow Bool) :=
  [⟨0, 0, 0, false, 0, 0⟩, ⟨0, 1, 0, true, 0, 0⟩]

theorem c4_step0 :
    initStep opsC4 [igC4, igC4] 0 0 false rowsC4 0 =
      .ok [⟨0, 0, 0, false, 0, 5⟩, ⟨0, 1, 0, true, 0, 0⟩] := by
  unfold initStep crewVelocity pyIndex pyGetAttr pyNum pyDivR rowsC4 igC4 opsC4
  norm_num [bind, Except.bind, pure, Except.pure, List.set]


theorem c4_step1 :
    initStep opsC4 [igC4, igC4] 0 0 false
        [⟨0, 0, 0, false, 0, 5⟩, ⟨0, 1, 0, true, 0, 0⟩] 1 =
      .ok [⟨0, 0, 0, false, 0, 5⟩, ⟨0, 1, 0, true, 1, 21⟩] := by
  have h25 : Real.sqrt 25 = 5 := by
    rw [show (25 : ℝ) = 5 ^ 2 by norm_num]
    exact Real.sqrt_sq (by norm_num)
  unfold initStep crewVelocity getOffset pyIndex pyGetAttr pyNum pyDivR headE
    npNormV igC4 opsC4
  norm_num [bind, Except.bind, pure, Except.pure, List.set, List.filter]
  norm_num [show ((0 : ℕ) == 1) = false from rfl, pyIndex, h25]

theorem c4_run :
    initPathTime opsC4 [igC4, igC4] 0 0 false rowsC4 =
      .ok [⟨0, 0, 0, false, 0, 5⟩, ⟨0, 1, 0, true, 1, 21⟩] := by
  unfold initPathTime
  dsimp only
  rw [show rowsC4.length = 2 from rfl, show List.range 2 = [0, 1] from rfl]
  simp only [List.foldlM_cons, List.foldlM_nil, bind, Except.bind]
  rw [c4_step0]
  dsimp only
  rw [c4_step1]
  simp only [pure, Except.pure]
  unfold initShift
  rw [show List.map (fun x => x.start_time)
        [(⟨0, 0, 0, false, 0, 5⟩ : PathRow Bool), ⟨0, 1, 0, true, 1, 21⟩] =
      [0, 1] from rfl]
  rw [show ([(0 : ℝ), 1]).min? = some 0 from by norm_num [List.min?]]
  norm_num

theorem c4_sync :
    syncEndTime [(⟨0, 0, 0, false, 0, 5⟩ : PathRow Bool), ⟨0, 1, 0, true, 1, 21⟩] =
      [⟨0, 0, 0, false, 16, 21⟩, ⟨0, 1, 0, true, 1, 21⟩] := by
  unfold syncEndTime sortedHeats
  rw [show (([(⟨0, 0, 0, false, 0, 5⟩ : PathRow Bool), ⟨0, 1, 0, true, 1, 21⟩].map
      (·.heat)).dedup).mergeSort (· ≤ ·) = [0] from by
    rw [show [(⟨0, 0, 0, false, 0, 5⟩ : PathRow Bool), ⟨0, 1, 0, true, 1, 21⟩].map
        (·.heat) = [0, 0] from rfl]
    rw [show ([0, 0] : List ℕ).dedup = [0] from by decide]
    simp]
  rw [List.foldl_cons, List.foldl_nil]
  unfold syncStep
  dsimp only
  rw [show (List.filter (fun r => r.heat == 0)
      [(⟨0, 0, 0, false, 0, 5⟩ : PathRow Bool), ⟨0, 1, 0, true, 1, 21⟩]) =
      [(⟨0, 0, 0, false, 0, 5⟩ : PathRow Bool), ⟨0, 1, 0, true, 1, 21⟩] from by simp]
  rw [show (List.map (fun x => x.end_time)
      [(⟨0, 0, 0, false, 0, 5⟩ : PathRow Bool), ⟨0, 1, 0, true, 1, 21⟩]).max? =
      some 21 from by norm_num [List.max?]]
  norm_num

/-- C4 counterexample: with end-time synchronization enabled the minimum
start time is no longer zero.  Two igniters in one heat: after
`_init_path_time` the starts are `[0, 1]` (minimum 0), but `_sync_end_time`
runs after the shift-to-zero and moves the short path's start to 16,
leaving minimum start time 1. -/
theorem sync_breaks_shift_to_zero :
    ∃ out, initPathTime opsC4 [igC4, igC4] 0 0 false rowsC4 = .ok out ∧
      ((syncEndTime out).map (·.start_time)).min? = some 1 ∧ (1 : ℝ) ≠ 0 := by
  refine ⟨_, c4_run, ?_, by norm_num⟩
  rw [c4_sync]
  rw [show List.map (fun r => r.start_time)
      [(⟨0, 0, 0, false, 16, 21⟩ : PathRow Bool), ⟨0, 1, 0, true, 1, 21⟩] =
      [16, 1] from rfl]
  norm_num [List.min?]

theorem min?_eq_some_iff_real {xs : List ℝ} {a : ℝ} :
    xs.min? = some a ↔ a ∈ xs ∧ ∀ b ∈ xs, a ≤ b := by
  haveI anti : Std.Antisymm ((· : ℝ) ≤ ·) := ⟨@fun _ _ h h2 => le_antisymm h h2⟩
  exact List.min?_eq_some_iff (fun _ => le_refl _) min_choice (fun _ _ _ => le_min_iff)

theorem initShift_min_zero {G : Type} (l : List (PathRow G)) (hne : l ≠ []) :
    ((initShift l).map (·.start_time)).min? = some 0 := by
  cases hmin : (l.map (·.start_time)).min? with
  | none =>
    rw [List.min?_eq_none_iff] at hmin
    exact absurd (List.map_eq_nil_iff.mp hmin) hne
  | some m =>
    unfold initShift
    rw [hmin]
    dsimp only
    by_cases hm : m = 0
    · subst hm
      rw [if_neg (by simp)]
      exact hmin
    · rw [if_pos hm, List.map_map]
      have hcomp : ((fun x : PathRow G => x.start_time) ∘
          fun r : PathRow G => { r with start_time := r.start_time - m,
                                        end_time := r.end_time - m }) =
          fun r : PathRow G => r.start_time - m := rfl
      rw [hcomp]
      obtain ⟨hmem, hle⟩ := min?_eq_some_iff_real.mp hmin
      apply min?_eq_some_iff_real.mpr
      constructor
      · rw [List.mem_map] at hmem ⊢
        obtain ⟨r, hr, hrs⟩ := hmem
        exact ⟨r, hr, by rw [hrs]; exact sub_self m⟩
      · intro b hb
        rw [List.mem_map] at hb
        obtain ⟨x, hx, rfl⟩ := hb
        simp only [sub_nonneg]
        exact hle x.start_time (List.mem_map_of_mem _ hx)

/-- C4 amended: after `_init_path_time` (which subtracts the minimum
start time from all start and end times whenever it is non-zero) the
minimum start time over all paths is exactly 0; with `sync_end_time`
enabled the subsequent per-heat shifts run after this normalisation and
can leave a positive minimum (see the counterexample). -/
theorem initPathTime_min_zero {G : Type} (ops : GeomOps G) (crew : List PyObj)
    (spacing delay : ℝ) (rt : Bool) (rows out : List (PathRow G))
    (h : initPathTime ops crew spacing delay rt rows = .ok out) (hne : out ≠ []) :
    (out.map (·.start_time)).min? = some 0 := by
  unfold initPathTime at h
  dsimp only at h
  cases hf : (List.range rows.length).foldlM (initStep ops crew spacing delay rt) rows with
  | error e =>
    rw [hf] at h
    simp only [bind, Except.bind] at h
    exact Except.noConfusion h
  | ok s =>
    rw [hf] at h
    simp only [bind, Except.bind, pure, Except.pure, Except.ok.injEq] at h
    subst h
    apply initShift_min_zero
    intro hs
    exact hne (by rw [hs]; rfl)

/-- Witness for `initPathTime_min_zero`: a single path starting at 0. -/
theorem initPathTime_min_zero_witness :
    initPathTime (⟨fun _ => 7, fun _ _ => 0, fun _ => [], fun _ _ => (0, 0)⟩ : GeomOps Unit)
        [igC4] 0 0 false [⟨0, 0, 0, (), 0, 0⟩] = .ok [⟨0, 0, 0, (), 0, 7⟩] ∧
    (([(⟨0, 0, 0, (), 0, 7⟩ : PathRow Unit)].map (·.start_time)).min? = some 0) := by
  have hrun : initPathTime
      (⟨fun _ => 7, fun _ _ => 0, fun _ => [], fun _ _ => (0, 0)⟩ : GeomOps Unit)
      [igC4] 0 0 false [⟨0, 0, 0, (), 0, 0⟩] = .ok [⟨0, 0, 0, (), 0, 7⟩] := by
    unfold initPathTime
    dsimp only
    rw [show [(⟨0, 0, 0, (), 0, 0⟩ : PathRow Unit)].length = 1 from rfl,
      show List.range 1 = [0] from rfl]
    simp only [List.foldlM_cons, List.foldlM_nil, bind, Except.bind]
    rw [show initStep (⟨fun _ => 7, fun _ _ => 0, fun _ => [], fun _ _ => (0, 0)⟩ : GeomOps Unit)
        [igC4] 0 0 false [⟨0, 0, 0, (), 0, 0⟩] 0 = .ok [⟨0, 0, 0, (), 0, 7⟩] from by
      unfold initStep crewVelocity pyIndex pyGetAttr pyNum pyDivR igC4
      norm_num [bind, Except.bind, pure, Except.pure, List.set]]
    simp only [pure, Except.pure]
    unfold initShift
    rw [show List.map (fun x => x.start_time) [(⟨0, 0, 0, (), 0, 7⟩ : PathRow Unit)] =
        [0] from rfl]
    rw [show ([(0 : ℝ)]).min? = some 0 from by norm_num [List.min?]]
    norm_num
  exact ⟨hrun, initPathTime_min_zero _ _ _ _ _ _ _ hrun (by simp)⟩


/-! ### C6: heat start-time ordering -/

/-- Counterexample geometry for the heat-order property: four paths of
length 10; the heat-1 follower igniter's line starts 12 m behind the first
coordinate of its heat's lead igniter, so `_get_offset` projects to a
negative offset. -/
noncomputable def opsC6 : GeomOps ℕ :=
  ⟨fun _ => 10, fun _ _ => 0,
   fun g =>
     if g = 0 then [(0, 0), (10, 0)]
     else if g = 1 then [(5, 1), (15, 1)]
     else if g = 2 then [(0, 5), (10, 5)]
     else [(-12, 6), (-2, 6)],
   fun _ _ => (0, 0)⟩

/-- Two heats of two single-leg igniter paths each. -/
noncomputable def rowsC6 : List (PathRow ℕ) :=
  [⟨0, 0, 0, 0, 0, 0⟩, ⟨0, 1, 0, 1, 0, 0⟩, ⟨1, 0, 0, 2, 0, 0⟩, ⟨1, 1, 0, 3, 0, 0⟩]

theorem c6_step0 :
    initStep opsC6 [igC4, igC4] 0 0 false rowsC6 0 =
      .ok [⟨0, 0, 0, 0, 0, 10⟩, ⟨0, 1, 0, 1, 0, 0⟩, ⟨1, 0, 0, 2, 0, 0⟩,
        ⟨1, 1, 0, 3, 0, 0⟩] := by
  unfold initStep crewVelocity pyIndex pyGetAttr pyNum pyDivR rowsC6 igC4 opsC6
  norm_num [bind, Except.bind, pure, Except.pure, List.set]

theorem c6_step1 :
    initStep opsC6 [igC4, igC4] 0 0 false
        [⟨0, 0, 0, 0, 0, 10⟩, ⟨0, 1, 0, 1, 0, 0⟩, ⟨1, 0, 0, 2, 0, 0⟩,
          ⟨1, 1, 0, 3, 0, 0⟩] 1 =
      .ok [⟨0, 0, 0, 0, 0, 10⟩, ⟨0, 1, 0, 1, 5, 15⟩, ⟨1, 0, 0, 2, 0, 0⟩,
        ⟨1, 1, 0, 3, 0, 0⟩] := by
  have h100 : Real.sqrt 100 = 10 := by
    rw [show (100 : ℝ) = 10 ^ 2 by norm_num]
    exact Real.sqrt_sq (by norm_num)
  unfold initStep crewVelocity getOffset pyIndex pyGetAttr pyNum pyDivR headE
    npNormV igC4 opsC6
  norm_num [bind, Except.bind, pure, Except.pure, List.set, List.filter]
  norm_num [show ((0 : ℕ) == 1) = false from rfl, show ((1 : ℕ) == 0) = false from rfl,
    pyIndex, h100]

theorem c6_step2 :
    initStep opsC6 [igC4, igC4] 0 0 false
        [⟨0, 0, 0, 0, 0, 10⟩, ⟨0, 1, 0, 1, 5, 15⟩, ⟨1, 0, 0, 2, 0, 0⟩,
          ⟨1, 1, 0, 3, 0, 0⟩] 2 =
      .ok [⟨0, 0, 0, 0, 0, 10⟩, ⟨0, 1, 0, 1, 5, 15⟩, ⟨1, 0, 0, 2, 15, 25⟩,
        ⟨1, 1, 0, 3, 0, 0⟩] := by
  unfold initStep crewVelocity maxE pyIndex pyGetAttr pyNum pyDivR igC4 opsC6
  norm_num [bind, Except.bind, pure, Except.pure, List.set, List.filter,
    show ((0 : ℕ) == 0) = true from rfl, show ((1 : ℕ) == 0) = false from rfl,
    List.max?]

theorem c6_step3 :
    initStep opsC6 [igC4, igC4] 0 0 false
        [⟨0, 0, 0, 0, 0, 10⟩, ⟨0, 1, 0, 1, 5, 15⟩, ⟨1, 0, 0, 2, 15, 25⟩,
          ⟨1, 1, 0, 3, 0, 0⟩] 3 =
      .ok [⟨0, 0, 0, 0, 0, 10⟩, ⟨0, 1, 0, 1, 5, 15⟩, ⟨1, 0, 0, 2, 15, 25⟩,
        ⟨1, 1, 0, 3, 3, 13⟩] := by
  have h100 : Real.sqrt 100 = 10 := by
    rw [show (100 : ℝ) = 10 ^ 2 by norm_num]
    exact Real.sqrt_sq (by norm_num)
  unfold initStep crewVelocity getOffset pyIndex pyGetAttr pyNum pyDivR headE
    npNormV igC4 opsC6
  norm_num [bind, Except.bind, pure, Except.pure, List.set, List.filter]
  norm_num [show ((0 : ℕ) == 1) = false from rfl, show ((1 : ℕ) == 0) = false from rfl,
    pyIndex, h100]

theorem c6_run :
    initPathTime opsC6 [igC4, igC4] 0 0 false rowsC6 =
      .ok [⟨0, 0, 0, 0, 0, 10⟩, ⟨0, 1, 0, 1, 5, 15⟩, ⟨1, 0, 0, 2, 15, 25⟩,
        ⟨1, 1, 0, 3, 3, 13⟩] := by
  unfold initPathTime
  dsimp only
  rw [show rowsC6.length = 4 from rfl, show List.range 4 = [0, 1, 2, 3] from rfl]
  simp only [List.foldlM_cons, List.foldlM_nil, bind, Except.bind]
  rw [c6_step0]
  dsimp only
  rw [c6_step1]
  dsimp only
  rw [c6_step2]
  dsimp only
  rw [c6_step3]
  simp only [pure, Except.pure]
  unfold initShift
  rw [show List.map (fun x => x.start_time)
        [(⟨0, 0, 0, 0, 0, 10⟩ : PathRow ℕ), ⟨0, 1, 0, 1, 5, 15⟩,
          ⟨1, 0, 0, 2, 15, 25⟩, ⟨1, 1, 0, 3, 3, 13⟩] =
      [0, 5, 15, 3] from rfl]
  rw [show ([(0 : ℝ), 5, 15, 3]).min? = some 0 from by norm_num [List.min?]]
  norm_num

/-- C6 counterexample: in a pattern with two heats of two igniters each, the
follower igniter of heat 1 starts 12 m behind its lead igniter, so its
offset is negative and its start time 3 is earlier than the start time 5 of
the follower igniter of heat 0: a heat-1 path starts before a heat-0 path. -/
theorem heat_order_violated :
    ∃ out, initPathTime opsC6 [igC4, igC4] 0 0 false rowsC6 = .ok out ∧
      ∃ p1 ∈ out, ∃ p2 ∈ out,
        p1.heat < p2.heat ∧ p2.start_time < p1.start_time := by
  refine ⟨_, c6_run, ⟨0, 1, 0, 1, 5, 15⟩, by simp, ⟨1, 1, 0, 3, 3, 13⟩, by simp, ?_, ?_⟩
  · norm_num
  · norm_num


/-- Strict ordering of the propagator's sorted DataFrame key
(`heat`, then `igniter`, then `leg`): row `a` precedes row `b`. -/
def keyLt {G : Type} (a b : PathRow G) : Prop :=
  a.heat < b.heat ∨ (a.heat = b.heat ∧ (a.igniter < b.igniter ∨
    (a.igniter = b.igniter ∧ a.leg < b.leg)))

/-- Invariant of the `_init_path_time` loop after the first `p` rows have
been processed: length and the key columns never change, rows from
position `p` on are untouched, processed rows end no earlier than they
start, and among processed rows a strictly earlier heat never starts
later. -/
def InitInv {G : Type} (rows s : List (PathRow G)) (p : ℕ) : Prop :=
  s.length = rows.length ∧
  (∀ q : ℕ, p ≤ q → s[q]? = rows[q]?) ∧
  (∀ (q : ℕ) (r : PathRow G), q < p → s[q]? = some r → r.start_time ≤ r.end_time) ∧
  (∀ (q1 q2 : ℕ) (r1 r2 : PathRow G), q1 < p → q2 < p → s[q1]? = some r1 → s[q2]? = some r2 →
    r1.heat < r2.heat → r1.start_time ≤ r2.start_time) ∧
  (∀ (q : ℕ) (r r' : PathRow G), s[q]? = some r → rows[q]? = some r' →
    r.heat = r'.heat ∧ r.igniter = r'.igniter ∧ r.leg = r'.leg)

theorem except_bind_ok {α β : Type} {x : Except PyErr α} {f : α → Except PyErr β}
    {b : β} (h : x >>= f = .ok b) : ∃ a, x = .ok a ∧ f a = .ok b := by
  cases x with
  | error e => simp only [bind, Except.bind] at h; exact Except.noConfusion h
  | ok a => exact ⟨a, rfl, by simpa only [bind, Except.bind] using h⟩

theorem headE_mem {α : Type} {l : List α} {a : α} (h : headE l = .ok a) : a ∈ l := by
  cases l with
  | nil => exact Except.noConfusion h
  | cons x xs =>
    simp only [headE, Except.ok.injEq] at h
    subst h
    exact List.mem_cons_self _ _

theorem max?_eq_some_iff_real {xs : List ℝ} {a : ℝ} :
    xs.max? = some a ↔ a ∈ xs ∧ ∀ b ∈ xs, b ≤ a := by
  haveI anti : Std.Antisymm ((· : ℝ) ≤ ·) := ⟨@fun _ _ h h2 => le_antisymm h h2⟩
  exact List.max?_eq_some_iff (fun _ => le_refl _) max_choice (fun _ _ _ => max_le_iff)

theorem maxE_spec {l : List ℝ} {m : ℝ} (h : maxE l = .ok m) :
    m ∈ l ∧ ∀ b ∈ l, b ≤ m := by
  unfold maxE at h
  cases hm : l.max? with
  | none => rw [hm] at h; exact Except.noConfusion h
  | some n =>
    rw [hm] at h
    simp only [Except.ok.injEq] at h
    subst h
    exact max?_eq_some_iff_real.mp hm

theorem pyIndex_ok {α : Type} {xs : List α} {i : ℕ} {a : α}
    (h : pyIndex xs i = .ok a) : xs[i]? = some a := by
  unfold pyIndex at h
  cases hx : xs.get? i with
  | none => rw [hx] at h; exact Except.noConfusion h
  | some b =>
    rw [hx] at h
    simp only [Except.ok.injEq] at h
    rw [List.get?_eq_getElem?] at hx
    rw [hx, h]

theorem pyDivR_ok {a b t : ℝ} (h : pyDivR a b = .ok t) : t = a / b := by
  unfold pyDivR at h
  split at h
  · exact Except.noConfusion h
  · simp only [Except.ok.injEq] at h
    exact h.symm

theorem keyLt_of_lt {G : Type} {rows : List (PathRow G)} (hs : rows.Pairwise keyLt)
    {q1 q2 : ℕ} {r1 r2 : PathRow G} (hlt : q1 < q2)
    (h1 : rows[q1]? = some r1) (h2 : rows[q2]? = some r2) : keyLt r1 r2 := by
  rw [List.getElem?_eq_some_iff] at h1 h2
  obtain ⟨hq1, rfl⟩ := h1
  obtain ⟨hq2, rfl⟩ := h2
  exact List.pairwise_iff_getElem.mp hs q1 q2 hq1 hq2 hlt


theorem exists_getElem_some {α : Type} (l : List α) (i : ℕ) (h : i < l.length) :
    ∃ a, l[i]? = some a := ⟨l[i], List.getElem?_eq_getElem h⟩

theorem pos_lt_of_keyLt {G : Type} {rows s : List (PathRow G)} {p q : ℕ}
    {path x : PathRow G}
    (hsort : rows.Pairwise keyLt)
    (hlenS : s.length = rows.length)
    (hkey : ∀ (q : ℕ) (r r' : PathRow G), s[q]? = some r → rows[q]? = some r' →
      r.heat = r'.heat ∧ r.igniter = r'.igniter ∧ r.leg = r'.leg)
    (hsp : s[p]? = some path) (hrp : rows[p]? = some path)
    (hsq : s[q]? = some x) (hx : keyLt x path) : q < p := by
  rcases Nat.lt_trichotomy q p with h | h | h
  · exact h
  · exfalso
    subst h
    rw [hsp, Option.some.injEq] at hsq
    subst hsq
    rcases hx with h1 | ⟨h1, h2 | ⟨h2, h3⟩⟩ <;> omega
  · exfalso
    have hqlen : q < s.length := (List.getElem?_eq_some_iff.mp hsq).1
    obtain ⟨rq, hrq⟩ := exists_getElem_some rows q (by omega)
    obtain ⟨hk1, hk2, hk3⟩ := hkey q x rq hsq hrq
    have hpk := keyLt_of_lt hsort h hrp hrq
    rcases hx with h1 | ⟨h1, h2 | ⟨h2, h3⟩⟩ <;>
      rcases hpk with g1 | ⟨g1, g2 | ⟨g2, g3⟩⟩ <;> omega

theorem initInv_set {G : Type} {rows s : List (PathRow G)} {p : ℕ} {path : PathRow G}
    {start₀ t delay : ℝ}
    (hinv : InitInv rows s p)
    (hplen : p < s.length)
    (hrp : rows[p]? = some path)
    (ht0 : 0 ≤ t)
    (hdelay : 0 ≤ delay)
    (hupper : ∀ (q : ℕ) (r : PathRow G), q < p → s[q]? = some r →
      r.heat ≤ path.heat)
    (hkeyfact : ∀ (q : ℕ) (r : PathRow G), q < p → s[q]? = some r →
      r.heat < path.heat → r.start_time ≤ start₀) :
    InitInv rows (s.set p { path with
      start_time := if 0 < path.heat then start₀ + delay else start₀,
      end_time := (if 0 < path.heat then start₀ + delay else start₀) + t }) (p + 1) := by
  obtain ⟨hlenS, hunch, hse, hmono, hkey⟩ := hinv
  refine ⟨?_, ?_, ?_, ?_, ?_⟩
  · rw [List.length_set]
    exact hlenS
  · intro q hq
    rw [List.getElem?_set_ne (by omega : p ≠ q)]
    exact hunch q (by omega)
  · intro q r hq hqget
    rcases Nat.lt_or_ge q p with hqp | hqp
    · rw [List.getElem?_set_ne (by omega)] at hqget
      exact hse q r hqp hqget
    · have hqp2 : p = q := by omega
      subst hqp2
      rw [List.getElem?_set_self hplen, Option.some.injEq] at hqget
      subst hqget
      dsimp only
      linarith
  · intro q1 q2 r1 r2 h1p h2p hget1 hget2 hh
    rcases Nat.lt_or_ge q1 p with hq1p | hq1p
    · rcases Nat.lt_or_ge q2 p with hq2p | hq2p
      · rw [List.getElem?_set_ne (by omega)] at hget1
        rw [List.getElem?_set_ne (by omega)] at hget2
        exact hmono q1 q2 r1 r2 hq1p hq2p hget1 hget2 hh
      · have h2e : p = q2 := by omega
        subst h2e
        rw [List.getElem?_set_ne (by omega)] at hget1
        rw [List.getElem?_set_self hplen, Option.some.injEq] at hget2
        subst hget2
        dsimp only at hh ⊢
        have hfact := hkeyfact q1 r1 hq1p hget1 hh
        split
        · linarith
        · linarith
    · have h1e : p = q1 := by omega
      subst h1e
      rw [List.getElem?_set_self hplen, Option.some.injEq] at hget1
      subst hget1
      rcases Nat.lt_or_ge q2 p with hq2p | hq2p
      · rw [List.getElem?_set_ne (by omega)] at hget2
        have hub := hupper q2 r2 hq2p hget2
        dsimp only at hh
        omega
      · have h2e : p = q2 := by omega
        subst h2e
        rw [List.getElem?_set_self hplen, Option.some.injEq] at hget2
        subst hget2
        dsimp only at hh
        exact absurd hh (lt_irrefl _)
  · intro q r r2 hget hgetR
    rcases eq_or_ne p q with hq | hq
    · subst hq
      rw [List.getElem?_set_self hplen, Option.some.injEq] at hget
      subst hget
      rw [hrp, Option.some.injEq] at hgetR
      subst hgetR
      exact ⟨rfl, rfl, rfl⟩
    · rw [List.getElem?_set_ne hq] at hget
      exact hkey q r r2 hget hgetR

theorem initStep_inv {G : Type} {ops : GeomOps G} {crew : List PyObj}
    {spacing delay : ℝ} {rt : Bool} {rows s s' : List (PathRow G)} {p : ℕ}
    (hsort : rows.Pairwise keyLt)
    (hvel : ∀ (j : ℕ) (v : ℝ), crewVelocity crew j = .ok v → 0 < v)
    (hlen : ∀ g : G, 0 ≤ ops.length g)
    (hdist : ∀ g g2 : G, 0 ≤ ops.distance g g2)
    (hoff : ∀ (prev cur : PathRow G) (v t : ℝ),
      getOffset ops prev cur spacing v = .ok t → 0 ≤ t)
    (hdelay : 0 ≤ delay)
    (hinv : InitInv rows s p)
    (hstep : initStep ops crew spacing delay rt s p = .ok s') :
    InitInv rows s' (p + 1) := by
  obtain ⟨hlenS, hunch, hse, hmono, hkey⟩ := hinv
  have hinv2 : InitInv rows s p := ⟨hlenS, hunch, hse, hmono, hkey⟩
  unfold initStep at hstep
  obtain ⟨path, hpath, hstep⟩ := except_bind_ok hstep
  try dsimp only at hstep
  have hsp : s[p]? = some path := pyIndex_ok hpath
  have hplen : p < s.length := (List.getElem?_eq_some_iff.mp hsp).1
  have hrp : rows[p]? = some path := by
    rw [← hunch p (le_refl p)]
    exact hsp
  have hplenR : p < rows.length := by
    rw [← hlenS]
    exact hplen
  obtain ⟨v, hv, hstep⟩ := except_bind_ok hstep
  try dsimp only at hstep
  have hvpos : 0 < v := hvel _ _ hv
  -- processed rows never carry a later heat than the current row
  have hupper : ∀ (q : ℕ) (r : PathRow G), q < p → s[q]? = some r →
      r.heat ≤ path.heat := by
    intro q r hq hget
    have hqlen : q < s.length := (List.getElem?_eq_some_iff.mp hget).1
    obtain ⟨rq, hrq⟩ := exists_getElem_some rows q (by omega)
    obtain ⟨hk1, hk2, hk3⟩ := hkey q r rq hget hrq
    have hkl := keyLt_of_lt hsort hq hrq hrp
    rcases hkl with h1 | ⟨h1, _⟩ <;> omega
  by_cases hk : path.leg ≠ 0
  · -- non-first leg: previous leg's end time plus non-negative travel time
    rw [if_pos hk] at hstep
    obtain ⟨prev, hprev, hstep⟩ := except_bind_ok hstep
    try dsimp only at hstep
    obtain ⟨t2, ht2, hstep⟩ := except_bind_ok hstep
    try dsimp only at hstep
    obtain ⟨y, hy, hstep⟩ := except_bind_ok hstep
    simp only [pure, Except.pure, Except.ok.injEq] at hy
    subst hy
    try dsimp only at hstep
    obtain ⟨t, ht, hstep⟩ := except_bind_ok hstep
    try dsimp only at hstep
    simp only [pure, Except.pure, Except.ok.injEq] at hstep
    subst hstep
    have ht0 : 0 ≤ t := by
      rw [pyDivR_ok ht]
      exact div_nonneg (hlen _) (le_of_lt hvpos)
    have ht20 : 0 ≤ t2 := by
      rw [pyDivR_ok ht2]
      exact div_nonneg (hdist _ _) (le_of_lt hvpos)
    refine initInv_set hinv2 hplen hrp ht0 hdelay hupper ?_
    intro q r hq hget hlt
    have hprevf := List.mem_filter.mp (headE_mem hprev)
    have hpk := hprevf.2
    simp only [Bool.and_eq_true, beq_iff_eq] at hpk
    obtain ⟨⟨hpk1, hpk2⟩, hpk3⟩ := hpk
    obtain ⟨qpr, hqpr⟩ := List.mem_iff_getElem?.mp hprevf.1
    have hqprp : qpr < p := pos_lt_of_keyLt hsort hlenS hkey hsp hrp hqpr
      (Or.inr ⟨hpk1, Or.inr ⟨hpk2, by omega⟩⟩)
    have h1 : r.start_time ≤ prev.start_time :=
      hmono q qpr r prev hq hqprp hget hqpr (by omega)
    have h2 : prev.start_time ≤ prev.end_time := hse qpr prev hqprp hqpr
    linarith
  · rw [if_neg hk] at hstep
    by_cases hA : path.heat ≠ 0 ∧ path.igniter = 0
    · -- lead igniter of a later heat: previous heat's max end time
      rw [if_pos hA] at hstep
      obtain ⟨m, hm, hstep⟩ := except_bind_ok hstep
      try dsimp only at hstep
      obtain ⟨hmmem, hmmax⟩ := maxE_spec hm
      have hkeyA : ∀ (q : ℕ) (r : PathRow G), q < p → s[q]? = some r →
          r.heat < path.heat → r.start_time ≤ m := by
        intro q r hq hget hlt
        rcases Nat.lt_or_ge r.heat (path.heat - 1) with hcase | hcase
        · -- a strictly earlier heat: chain through some previous-heat row
          obtain ⟨rstar, hrstarf, hrstare⟩ := List.mem_map.mp hmmem
          have hrstar := List.mem_filter.mp hrstarf
          have hrstarheat : rstar.heat = path.heat - 1 := by
            have h2 := hrstar.2
            simpa [beq_iff_eq] using h2
          obtain ⟨qs, hqs⟩ := List.mem_iff_getElem?.mp hrstar.1
          have hqsp : qs < p := pos_lt_of_keyLt hsort hlenS hkey hsp hrp hqs
            (Or.inl (by omega))
          have h1 : r.start_time ≤ rstar.start_time :=
            hmono q qs r rstar hq hqsp hget hqs (by omega)
          have h2 : rstar.start_time ≤ rstar.end_time := hse qs rstar hqsp hqs
          have h3 : rstar.end_time ≤ m := hmmax _ (List.mem_map_of_mem _ hrstarf)
          linarith
        · -- the previous heat itself: this row's end is below the maximum
          have hreq : r.heat = path.heat - 1 := by omega
          have hrfil : r ∈ s.filter (fun r2 => r2.heat == path.heat - 1) := by
            rw [List.mem_filter]
            exact ⟨List.mem_iff_getElem?.mpr ⟨q, hget⟩, by simp [hreq]⟩
          have h2 : r.start_time ≤ r.end_time := hse q r hq hget
          have h3 : r.end_time ≤ m := hmmax _ (List.mem_map_of_mem _ hrfil)
          linarith
      cases rt with
      | true =>
        rw [if_pos rfl] at hstep
        obtain ⟨t2, ht2, hstep⟩ := except_bind_ok hstep
        try dsimp only at hstep
        obtain ⟨y, hy, hstep⟩ := except_bind_ok hstep
        simp only [pure, Except.pure, Except.ok.injEq] at hy
        subst hy
        try dsimp only at hstep
        obtain ⟨t, ht, hstep⟩ := except_bind_ok hstep
        try dsimp only at hstep
        simp only [pure, Except.pure, Except.ok.injEq] at hstep
        subst hstep
        have ht20 : 0 ≤ t2 := by
          rw [pyDivR_ok ht2]
          exact div_nonneg (hlen _) (le_of_lt hvpos)
        have ht0 : 0 ≤ t := by
          rw [pyDivR_ok ht]
          exact div_nonneg (hlen _) (le_of_lt hvpos)
        refine initInv_set hinv2 hplen hrp ht0 hdelay hupper ?_
        intro q r hq hget hlt
        have hf := hkeyA q r hq hget hlt
        linarith
      | false =>
        rw [if_neg (by simp)] at hstep
        obtain ⟨y, hy, hstep⟩ := except_bind_ok hstep
        simp only [pure, Except.pure, Except.ok.injEq] at hy
        subst hy
        try dsimp only at hstep
        obtain ⟨t, ht, hstep⟩ := except_bind_ok hstep
        try dsimp only at hstep
        simp only [pure, Except.pure, Except.ok.injEq] at hstep
        subst hstep
        have ht0 : 0 ≤ t := by
          rw [pyDivR_ok ht]
          exact div_nonneg (hlen _) (le_of_lt hvpos)
        exact initInv_set hinv2 hplen hrp ht0 hdelay hupper hkeyA
    · rw [if_neg hA] at hstep
      by_cases hj : path.igniter ≠ 0
      · -- follower igniter: previous igniter's start plus the stagger offset
        rw [if_pos hj] at hstep
        obtain ⟨cur, hcur, hstep⟩ := except_bind_ok hstep
        try dsimp only at hstep
        obtain ⟨prev, hprev, hstep⟩ := except_bind_ok hstep
        try dsimp only at hstep
        obtain ⟨off, hoffeq, hstep⟩ := except_bind_ok hstep
        try dsimp only at hstep
        obtain ⟨y, hy, hstep⟩ := except_bind_ok hstep
        simp only [pure, Except.pure, Except.ok.injEq] at hy
        subst hy
        try dsimp only at hstep
        obtain ⟨t, ht, hstep⟩ := except_bind_ok hstep
        try dsimp only at hstep
        simp only [pure, Except.pure, Except.ok.injEq] at hstep
        subst hstep
        have ht0 : 0 ≤ t := by
          rw [pyDivR_ok ht]
          exact div_nonneg (hlen _) (le_of_lt hvpos)
        refine initInv_set hinv2 hplen hrp ht0 hdelay hupper ?_
        intro q r hq hget hlt
        have hoff0 : 0 ≤ off := hoff _ _ _ _ hoffeq
        have hprevf := List.mem_filter.mp (headE_mem hprev)
        have hpk := hprevf.2
        simp only [Bool.and_eq_true, beq_iff_eq] at hpk
        obtain ⟨hpk1, hpk2⟩ := hpk
        obtain ⟨qpr, hqpr⟩ := List.mem_iff_getElem?.mp hprevf.1
        have hqprp : qpr < p := pos_lt_of_keyLt hsort hlenS hkey hsp hrp hqpr
          (Or.inr ⟨hpk1, Or.inl (by omega)⟩)
        have h1 : r.start_time ≤ prev.start_time :=
          hmono q qpr r prev hq hqprp hget hqpr (by omega)
        linarith
      · -- first igniter of the first heat: no earlier heat can exist
        rw [if_neg hj] at hstep
        obtain ⟨y, hy, hstep⟩ := except_bind_ok hstep
        simp only [pure, Except.pure, Except.ok.injEq] at hy
        subst hy
        try dsimp only at hstep
        obtain ⟨t, ht, hstep⟩ := except_bind_ok hstep
        try dsimp only at hstep
        simp only [pure, Except.pure, Except.ok.injEq] at hstep
        subst hstep
        have ht0 : 0 ≤ t := by
          rw [pyDivR_ok ht]
          exact div_nonneg (hlen _) (le_of_lt hvpos)
        refine initInv_set hinv2 hplen hrp ht0 hdelay hupper ?_
        intro q r hq hget hlt
        exfalso
        have hig : path.igniter = 0 := by omega
        have hh0 : path.heat = 0 := by
          by_contra hne
          exact hA ⟨hne, hig⟩
        omega

theorem initFold_inv {G : Type} {ops : GeomOps G} {crew : List PyObj}
    {spacing delay : ℝ} {rt : Bool} {rows : List (PathRow G)}
    (hsort : rows.Pairwise keyLt)
    (hvel : ∀ (j : ℕ) (v : ℝ), crewVelocity crew j = .ok v → 0 < v)
    (hlen : ∀ g : G, 0 ≤ ops.length g)
    (hdist : ∀ g g2 : G, 0 ≤ ops.distance g g2)
    (hoff : ∀ (prev cur : PathRow G) (v t : ℝ),
      getOffset ops prev cur spacing v = .ok t → 0 ≤ t)
    (hdelay : 0 ≤ delay) :
    ∀ (k p : ℕ) (s s2 : List (PathRow G)), InitInv rows s p →
      (List.range' p k).foldlM (initStep ops crew spacing delay rt) s = .ok s2 →
      InitInv rows s2 (p + k) := by
  intro k
  induction k with
  | zero =>
    intro p s s2 hinv hfold
    simp only [List.range'_zero, List.foldlM_nil, pure, Except.pure,
      Except.ok.injEq] at hfold
    subst hfold
    exact hinv
  | succ k ih =>
    intro p s s2 hinv hfold
    rw [List.range'_succ, List.foldlM_cons] at hfold
    obtain ⟨s1, hs1, hrest⟩ := except_bind_ok hfold
    have hinv1 := initStep_inv hsort hvel hlen hdist hoff hdelay hinv hs1
    have h2 := ih (p + 1) s1 s2 hinv1 hrest
    rw [show p + (k + 1) = p + 1 + k from by omega]
    exact h2

theorem initShift_heat_order {G : Type} (l : List (PathRow G))
    (hm : ∀ r1 ∈ l, ∀ r2 ∈ l, r1.heat < r2.heat → r1.start_time ≤ r2.start_time) :
    ∀ r1 ∈ initShift l, ∀ r2 ∈ initShift l,
      r1.heat < r2.heat → r1.start_time ≤ r2.start_time := by
  unfold initShift
  cases hmin : (l.map (·.start_time)).min? with
  | none => exact hm
  | some m =>
    dsimp only
    split
    · intro r1 h1 r2 h2 hh
      rw [List.mem_map] at h1 h2
      obtain ⟨a1, ha1, rfl⟩ := h1
      obtain ⟨a2, ha2, rfl⟩ := h2
      dsimp only at hh ⊢
      have h3 := hm a1 ha1 a2 ha2 hh
      linarith
    · exact hm


/-- C6 amended: the heat-order property holds for the runs the propagator is
designed for, but not "for all spacing values and path geometries": it
requires every `_get_offset` result to be non-negative (a follower igniter
whose line starts far enough behind its lead igniter gets a negative offset
and can start before paths of earlier heats, see the counterexample), and
positive crew velocities, non-negative path lengths and inter-leg travel
distances, a non-negative heat delay, and rows sorted by (heat, igniter,
leg) as the code's sort_values guarantees.  Under these hypotheses every
output path of a later heat, legs included, starts no earlier than every
output path of an earlier heat. -/
theorem initPathTime_heat_order {G : Type} (ops : GeomOps G) (crew : List PyObj)
    (spacing delay : ℝ) (rt : Bool) (rows out : List (PathRow G))
    (hsort : rows.Pairwise keyLt)
    (hvel : ∀ (j : ℕ) (v : ℝ), crewVelocity crew j = .ok v → 0 < v)
    (hlen : ∀ g : G, 0 ≤ ops.length g)
    (hdist : ∀ g g2 : G, 0 ≤ ops.distance g g2)
    (hoff : ∀ (prev cur : PathRow G) (v t : ℝ),
      getOffset ops prev cur spacing v = .ok t → 0 ≤ t)
    (hdelay : 0 ≤ delay)
    (h : initPathTime ops crew spacing delay rt rows = .ok out) :
    ∀ p1 ∈ out, ∀ p2 ∈ out, p1.heat < p2.heat →
      p1.start_time ≤ p2.start_time := by
  unfold initPathTime at h
  try dsimp only at h
  obtain ⟨sf, hsf, hout⟩ := except_bind_ok h
  simp only [pure, Except.pure, Except.ok.injEq] at hout
  subst hout
  have hbase : InitInv rows rows 0 := by
    refine ⟨rfl, fun _ _ => rfl, ?_, ?_, ?_⟩
    · intro q r hq hget
      exact absurd hq (by omega)
    · intro q1 q2 r1 r2 h1 h2 hg1 hg2 hh
      exact absurd h2 (by omega)
    · intro q r r2 h1 h2
      rw [h1, Option.some.injEq] at h2
      subst h2
      exact ⟨rfl, rfl, rfl⟩
  have hfin : InitInv rows sf rows.length := by
    have h2 := initFold_inv hsort hvel hlen hdist hoff hdelay rows.length 0 rows sf
      hbase (by rw [← List.range_eq_range']; exact hsf)
    simpa using h2
  have hmonoF : ∀ r1 ∈ sf, ∀ r2 ∈ sf, r1.heat < r2.heat →
      r1.start_time ≤ r2.start_time := by
    obtain ⟨hlenF, _, _, hmono, _⟩ := hfin
    intro r1 h1 r2 h2 hh
    obtain ⟨q1, hq1⟩ := List.mem_iff_getElem?.mp h1
    obtain ⟨q2, hq2⟩ := List.mem_iff_getElem?.mp h2
    have hq1len : q1 < sf.length := (List.getElem?_eq_some_iff.mp hq1).1
    have hq2len : q2 < sf.length := (List.getElem?_eq_some_iff.mp hq2).1
    exact hmono q1 q2 r1 r2 (by omega) (by omega) hq1 hq2 hh
  exact initShift_heat_order sf hmonoF

/-- Witness for `initPathTime_heat_order`: a two-heat run where the heat-1
path starts at time 7, after the heat-0 path starting at 0. -/
theorem initPathTime_heat_order_witness :
    initPathTime (⟨fun _ => 7, fun _ _ => 0, fun _ => [], fun _ _ => (0, 0)⟩ :
        GeomOps Bool) [igC4] 0 0 false
        [⟨0, 0, 0, false, 0, 0⟩, ⟨1, 0, 0, true, 0, 0⟩] =
      .ok [⟨0, 0, 0, false, 0, 7⟩, ⟨1, 0, 0, true, 7, 14⟩] ∧
    (⟨0, 0, 0, false, 0, 7⟩ : PathRow Bool).start_time ≤
      (⟨1, 0, 0, true, 7, 14⟩ : PathRow Bool).start_time := by
  have hstep0 : initStep (⟨fun _ => 7, fun _ _ => 0, fun _ => [], fun _ _ => (0, 0)⟩ :
        GeomOps Bool) [igC4] 0 0 false
        [⟨0, 0, 0, false, 0, 0⟩, ⟨1, 0, 0, true, 0, 0⟩] 0 =
      .ok [⟨0, 0, 0, false, 0, 7⟩, ⟨1, 0, 0, true, 0, 0⟩] := by
    unfold initStep crewVelocity pyIndex pyGetAttr pyNum pyDivR igC4
    norm_num [bind, Except.bind, pure, Except.pure, List.set]
  have hstep1 : initStep (⟨fun _ => 7, fun _ _ => 0, fun _ => [], fun _ _ => (0, 0)⟩ :
        GeomOps Bool) [igC4] 0 0 false
        [⟨0, 0, 0, false, 0, 7⟩, ⟨1, 0, 0, true, 0, 0⟩] 1 =
      .ok [⟨0, 0, 0, false, 0, 7⟩, ⟨1, 0, 0, true, 7, 14⟩] := by
    unfold initStep crewVelocity maxE pyIndex pyGetAttr pyNum pyDivR igC4
    norm_num [bind, Except.bind, pure, Except.pure, List.set, List.filter,
      show ((0 : ℕ) == 0) = true from rfl, show ((1 : ℕ) == 0) = false from rfl,
      List.max?]
  have hrun : initPathTime (⟨fun _ => 7, fun _ _ => 0, fun _ => [], fun _ _ => (0, 0)⟩ :
        GeomOps Bool) [igC4] 0 0 false
        [⟨0, 0, 0, false, 0, 0⟩, ⟨1, 0, 0, true, 0, 0⟩] =
      .ok [⟨0, 0, 0, false, 0, 7⟩, ⟨1, 0, 0, true, 7, 14⟩] := by
    unfold initPathTime
    dsimp only
    rw [show [(⟨0, 0, 0, false, 0, 0⟩ : PathRow Bool), ⟨1, 0, 0, true, 0, 0⟩].length = 2
        from rfl, show List.range 2 = [0, 1] from rfl]
    simp only [List.foldlM_cons, List.foldlM_nil, bind, Except.bind]
    rw [hstep0]
    dsimp only
    rw [hstep1]
    simp only [pure, Except.pure]
    unfold initShift
    rw [show List.map (fun x => x.start_time)
          [(⟨0, 0, 0, false, 0, 7⟩ : PathRow Bool), ⟨1, 0, 0, true, 7, 14⟩] =
        [0, 7] from rfl]
    rw [show ([(0 : ℝ), 7]).min? = some 0 from by norm_num [List.min?]]
    norm_num
  refine ⟨hrun, ?_⟩
  refine initPathTime_heat_order _ _ _ _ _ _ _ ?_ ?_ ?_ ?_ ?_ ?_ hrun _ ?_ _ ?_ ?_
  · refine List.Pairwise.cons ?_ (List.pairwise_singleton _ _)
    intro b hb
    simp only [List.mem_singleton] at hb
    subst hb
    exact Or.inl (by norm_num)
  · intro j v hv
    match j with
    | 0 =>
      rw [show crewVelocity [igC4] 0 = Except.ok ((1 : ℚ) : ℝ) from rfl,
        Except.ok.injEq] at hv
      rw [← hv]
      norm_num
    | j + 1 =>
      rw [show crewVelocity [igC4] (j + 1) = Except.error PyErr.indexError from rfl]
        at hv
      exact Except.noConfusion hv
  · intro g
    norm_num
  · intro g g2
    norm_num
  · intro prev cur v t hofft
    unfold getOffset pyIndex at hofft
    simp only [List.get?, bind, Except.bind] at hofft
    exact Except.noConfusion hofft
  · norm_num
  · simp
  · simp
  · norm_num

end Pattern

/-! ## `_distance.py`: the geodesic distance transform

Embedding of `GeodesicDistanceTransform` (`_distance.py` lines 63-199).
Numpy float cells are idealised as `CostE`: a real number or the explicit
`np.inf` marker (the only special value the code manipulates; `np.nan`
arising from `inf - inf` is conflated with `inf`, which yields the same
branch decisions in every comparison the code performs).  The class methods
`Grid.pad`, `Grid.like` and `Grid.draw_line` that `__init__` calls are
absent from `_grid.py`; they are modelled from the spec (section 4.4
"Preparation") below.  The `while` loop of `solve` runs on fuel. -/

namespace Distance

open Classical

/-- A numpy float cell: a finite real or `np.inf`. -/
inductive CostE where
  | fin (x : ℝ)
  | inf

/-- Raster transform as in `_grid.py` `Transform.__init__` (lines 20-51):
`x = ulx + res_x * col`, `y = uly - res_y * row`. -/
structure Transform where
  ulx : ℝ
  uly : ℝ
  res_x : ℝ
  res_y : ℝ

/-- A raster grid as in `_grid.py` `Grid.__init__`. -/
structure GridE where
  data : List (List CostE)
  transform : Transform
  epsg : ℤ

/-- Python `int()` / numpy `astype(int)`: truncation toward zero. -/
noncomputable def pyInt (x : ℝ) : ℤ := if x < 0 then -⌊-x⌋ else ⌊x⌋

/-- Embedding of `Transform.world2ind` (lines 53-58): invert the affine
index-to-world map, giving the (row, col) cell of a world coordinate. -/
noncomputable def world2ind (t : Transform) (xy : ℝ × ℝ) : ℤ × ℤ :=
  (pyInt ((t.uly - xy.2) / t.res_y), pyInt ((xy.1 - t.ulx) / t.res_x))

/-- Modelled from the spec: pad a data buffer by `n` border cells holding
`fill` on every side (spec 4.4 Preparation step 1). -/
def padData (n : ℕ) (fill : CostE) (d : List (List CostE)) : List (List CostE) :=
  let w := ((d.head?.map List.length).getD 0) + 2 * n
  List.replicate n (List.replicate w fill) ++
    d.map (fun row => List.replicate n fill ++ row ++ List.replicate n fill) ++
    List.replicate n (List.replicate w fill)

/-- Modelled from the spec: crop `n` border cells from every side,
reversing `padData` (spec 4.4 Unpad; the code calls `pad(-10)`). -/
def unpadData (n : ℕ) (d : List (List CostE)) : List (List CostE) :=
  ((d.drop n).take (d.length - 2 * n)).map
    (fun row => (row.drop n).take (row.length - 2 * n))

/-- Modelled from the spec: `Grid.pad` shifts the upper-left corner out by
`n` cells while padding the buffer. -/
def padG (n : ℕ) (fill : CostE) (g : GridE) : GridE :=
  ⟨padData n fill g.data,
   ⟨g.transform.ulx - n * g.transform.res_x, g.transform.uly + n * g.transform.res_y,
    g.transform.res_x, g.transform.res_y⟩, g.epsg⟩

/-- The cells of the digital line between two index cells, by linear
interpolation with rounding; part of the spec-modelled `draw_line`. -/
def ddaCells (a b : ℤ × ℤ) : List (ℤ × ℤ) :=
  let di := b.1 - a.1
  let dj := b.2 - a.2
  let n := max di.natAbs dj.natAbs
  if n = 0 then [a]
  else
    (List.range (n + 1)).map fun m =>
      (a.1 + Int.fdiv (2 * di * m + n) (2 * n), a.2 + Int.fdiv (2 * dj * m + n) (2 * n))

/-- Mark one mask cell, silently clipping out-of-range indices (writes past
a row or column bound are dropped by `List.set`); part of the spec-modelled
`draw_line` ("only the portion intersecting the DEM bounds contributes"). -/
def markCell (g : List (List Bool)) (ij : ℤ × ℤ) : List (List Bool) :=
  if 0 ≤ ij.1 ∧ 0 ≤ ij.2 then
    match g.get? ij.1.toNat with
    | some row => g.set ij.1.toNat (row.set ij.2.toNat true)
    | Option.none => g
  else g

/-- Modelled from the spec: `Grid.draw_line` rasterizes the source polyline
into a mask with fill value 1, clipping the parts outside the grid
(spec 4.4 Preparation step 2 and Edge cases). -/
noncomputable def drawLine (t : Transform) (g : List (List Bool))
    (path : List (ℝ × ℝ)) : List (List Bool) :=
  (path.zip path.tail).foldl
    (fun acc pq => (ddaCells (world2ind t pq.1) (world2ind t pq.2)).foldl markCell acc)
    g

/-- Row-major indices of the set mask cells (`np.argwhere(source.data == 1)`). -/
def maskIndices (g : List (List Bool)) : List (ℤ × ℤ) :=
  g.enum.flatMap fun ir =>
    ir.2.enum.filterMap fun jb =>
      if jb.2 then some ((ir.1 : ℤ), (jb.1 : ℤ)) else Option.none

/-- Multiplication of a cell by the vertical exaggeration
(`self.dem.data *= z_multiplier`, line 88). -/
noncomputable def scaleCell (z : ℝ) : CostE → CostE
  | CostE.fin x => CostE.fin (x * z)
  | CostE.inf => CostE.inf

/-- Cell read `data[i, j]` at signed indices; the algorithm only reads
inside the padded buffer, whose border holds `inf`, so out-of-range reads
are rendered as `inf` as well. -/
noncomputable def cellZ (g : List (List CostE)) (i j : ℤ) : CostE :=
  if 0 ≤ i ∧ 0 ≤ j then
    match g.get? i.toNat with
    | some row => (row.get? j.toNat).getD CostE.inf
    | Option.none => CostE.inf
  else CostE.inf

/-- Cell write `data[i, j] = v` at signed indices (only reached in range,
as for `cellZ`). -/
noncomputable def setCellZ (g : List (List CostE)) (i j : ℤ) (v : CostE) :
    List (List CostE) :=
  if 0 ≤ i ∧ 0 ≤ j then
    match g.get? i.toNat with
    | some row => g.set i.toNat (row.set j.toNat v)
    | Option.none => g
  else g

/-- Embedding of `get_local_distance_kernel` (lines 113-143) as the value
table `K[ii+k, jj+k] = (sqrt(ii^2 + jj^2) * scale)^2`. -/
noncomputable def kernelVal (scale : ℝ) (ii jj : ℤ) : ℝ :=
  (Real.sqrt ((ii : ℝ) ^ 2 + (jj : ℝ) ^ 2) * scale) ^ 2

/-- The 3D edge weight `sqrt(dz^2 + K[ii+k, jj+k])` of `_evaluate_neighbors`
(lines 167-171); any `inf` elevation poisons the weight. -/
noncomputable def edgeWeight (a b : CostE) (kk : ℝ) : CostE :=
  match a, b with
  | CostE.fin x, CostE.fin y => CostE.fin (Real.sqrt ((x - y) ^ 2 + kk))
  | _, _ => CostE.inf

/-- Numpy `<` against a float cell (`inf < inf` is false). -/
def ltC : ℝ → CostE → Prop
  | a, CostE.fin b => a < b
  | _, CostE.inf => True

/-- Numpy `<=` of a finite popped distance against a float cell. -/
def leD : ℝ → CostE → Prop
  | a, CostE.fin b => a ≤ b
  | _, CostE.inf => True

/-- The neighborhood offsets `(ii, jj)` for `ii, jj in range(-k, k+1)` in
loop order. -/
def offsets (k : ℕ) : List (ℤ × ℤ) :=
  (List.range (2 * k + 1)).flatMap fun a =>
    (List.range (2 * k + 1)).map fun b => ((a : ℤ) - k, (b : ℤ) - k)

/-- Accumulated distance plus edge weight (`distance + np.sqrt(...)`). -/
noncomputable def addDist (d : ℝ) : CostE → CostE
  | CostE.fin w => CostE.fin (d + w)
  | CostE.inf => CostE.inf

/-- Embedding of `_evaluate_neighbors` (lines 145-178): relax every
neighbor of `(i, j)`, returning the updated cost buffer and the entries
pushed on the priority queue. -/
noncomputable def evaluateNeighbors (dem : List (List CostE)) (scale : ℝ)
    (k : ℕ) (cost : List (List CostE)) (d : ℝ) (i j : ℤ) :
    List (List CostE) × List (ℝ × ℤ × ℤ) :=
  (offsets k).foldl
    (fun acc off =>
      match addDist d (edgeWeight (cellZ dem i j) (cellZ dem (i + off.1) (j + off.2))
          (kernelVal scale off.1 off.2)) with
      | CostE.inf => acc
      | CostE.fin nd =>
        if ltC nd (cellZ acc.1 (i + off.1) (j + off.2)) then
          (setCellZ acc.1 (i + off.1) (j + off.2) (CostE.fin nd),
           acc.2 ++ [(nd, i + off.1, j + off.2)])
        else acc)
    (cost, [])

/-- Lexicographic order of `heapq` on `(distance, i, j)` tuples. -/
def lexLt (a b : ℝ × ℤ × ℤ) : Prop :=
  a.1 < b.1 ∨ (a.1 = b.1 ∧ (a.2.1 < b.2.1 ∨ (a.2.1 = b.2.1 ∧ a.2.2 < b.2.2)))

/-- Remove the first occurrence of an entry. -/
noncomputable def removeFirst : List (ℝ × ℤ × ℤ) → (ℝ × ℤ × ℤ) → List (ℝ × ℤ × ℤ)
  | [], _ => []
  | x :: xs, y => if x = y then xs else x :: removeFirst xs y

/-- `heapq.heappop`: extract the lexicographically least entry. -/
noncomputable def popMin : List (ℝ × ℤ × ℤ) →
    Option ((ℝ × ℤ × ℤ) × List (ℝ × ℤ × ℤ))
  | [] => Option.none
  | x :: xs =>
    let m := xs.foldl (fun acc e => if lexLt e acc then e else acc) x
    some (m, removeFirst (x :: xs) m)

/-- Embedding of the `while` loop of `solve` (lines 191-195) on fuel: pop
the least entry, discard it when stale, otherwise relax its neighbors. -/
noncomputable def gdtLoop (dem : List (List CostE)) (scale : ℝ) (k : ℕ) :
    ℕ → List (List CostE) → List (ℝ × ℤ × ℤ) → Except PyErr (List (List CostE))
  | fuel, cost, pq =>
    match popMin pq with
    | Option.none => .ok cost
    | some (e, rest) =>
      match fuel with
      | 0 => .error .fuelExhausted
      | fuel + 1 =>
        if leD e.1 (cellZ cost e.2.1 e.2.2) then
          let res := evaluateNeighbors dem scale k cost e.1 e.2.1 e.2.2
          gdtLoop dem scale k fuel res.1 (rest ++ res.2)
        else
          gdtLoop dem scale k fuel cost rest

/-- The final rewrite of `solve` (line 198):
`cost_distance.data[cost_distance.data == np.inf] = 0`. -/
def zeroInf : CostE → CostE
  | CostE.inf => CostE.fin 0
  | c => c

/-- Embedding of `GeodesicDistanceTransform.__init__` plus `solve`
(lines 66-111 and 180-199): pad the DEM with `inf`, apply the vertical
exaggeration, rasterize the source line, initialise the cost grid and the
queue, run Dijkstra, zero every remaining `inf` cell and unpad. -/
noncomputable def gdtSolve (dem : GridE) (source_path : List (ℝ × ℝ))
    (k : ℕ) (z_mul : ℝ) (fuel : ℕ) : Except PyErr GridE :=
  let demP := padG 10 CostE.inf dem
  let demD := if z_mul ≠ 1 then demP.data.map (List.map (scaleCell z_mul))
    else demP.data
  let mask := drawLine demP.transform (demD.map (List.map (fun _ => false)))
    source_path
  let cost0 := mask.map (List.map (fun b => if b then CostE.fin 0 else CostE.inf))
  let pq0 := (maskIndices mask).map (fun ij => ((0 : ℝ), ij.1, ij.2))
  do
    let final ← gdtLoop demD demP.transform.res_x k fuel cost0 pq0
    pure ⟨unpadData 10 (final.map (List.map zeroInf)),
      ⟨demP.transform.ulx + 10 * demP.transform.res_x,
       demP.transform.uly - 10 * demP.transform.res_y,
       demP.transform.res_x, demP.transform.res_y⟩,
      dem.epsg⟩


/-- Counterexample DEM: a single finite cell at elevation 5 with a unit
transform. -/
noncomputable def demC2 : GridE := ⟨[[CostE.fin 5]], ⟨0, 0, 1, 1⟩, 32610⟩

/-- Counterexample source path: a degenerate line far outside the DEM
bounds, so the rasterized source mask is empty and Dijkstra visits no
cell. -/
noncomputable def pathC2 : List (ℝ × ℝ) := [(1000, 2000), (1000, 2000)]

theorem drawLine_c2 (m : List (List Bool)) :
    drawLine ⟨0 - ((10 : ℕ) : ℝ) * 1, 0 + ((10 : ℕ) : ℝ) * 1, 1, 1⟩ m
      [((1000 : ℝ), (2000 : ℝ)), (1000, 2000)] = m := by
  have hw : world2ind ⟨0 - ((10 : ℕ) : ℝ) * 1, 0 + ((10 : ℕ) : ℝ) * 1, 1, 1⟩
      ((1000 : ℝ), (2000 : ℝ)) = (-1990, 1010) := by
    unfold world2ind pyInt
    norm_num [Int.floor_ofNat, Prod.ext_iff]
  unfold drawLine
  rw [show ([((1000 : ℝ), (2000 : ℝ)), (1000, 2000)].zip
      [((1000 : ℝ), (2000 : ℝ)), (1000, 2000)].tail) =
      [(((1000 : ℝ), (2000 : ℝ)), ((1000 : ℝ), (2000 : ℝ)))] from rfl]
  rw [List.foldl_cons, List.foldl_nil]
  dsimp only
  rw [hw]
  rfl

theorem c2_run : gdtSolve demC2 pathC2 1 1 9 =
    .ok ⟨[[CostE.fin 0]],
      ⟨0 - ((10 : ℕ) : ℝ) * 1 + 10 * 1, 0 + ((10 : ℕ) : ℝ) * 1 - 10 * 1, 1, 1⟩,
      32610⟩ := by
  unfold gdtSolve demC2 pathC2 padG
  dsimp only
  rw [if_neg (show ¬(1 : ℝ) ≠ 1 from fun hc => hc rfl)]
  rw [drawLine_c2]
  rfl

/-- C2 counterexample: a source line lying outside the DEM leaves every
cell unvisited by Dijkstra (the source mask and hence the queue are empty),
yet the returned cost grid holds 0, not the +infinity the claim requires:
`solve` line 198 zeroes every remaining infinite cell before unpadding. -/
theorem unreachable_cell_reported_zero :
    ∃ tr, gdtSolve demC2 pathC2 1 1 9 = .ok ⟨[[CostE.fin 0]], tr, 32610⟩ ∧
      CostE.fin 0 ≠ CostE.inf := by
  exact ⟨_, c2_run, fun hc => CostE.noConfusion hc⟩

/-- Every cell of a `zeroInf`-rewritten buffer is finite. -/
theorem zeroInf_ne_inf (x : CostE) : zeroInf x ≠ CostE.inf := by
  cases x with
  | fin a => exact fun hc => CostE.noConfusion hc
  | inf => exact fun hc => CostE.noConfusion hc

/-- C2 amended: cells that Dijkstra never visits do remain at +infinity in
the cost grid while the algorithm runs, but not in the grid `solve`
returns: line 198 (`cost_distance.data[cost_distance.data == np.inf] = 0`)
rewrites every remaining +infinity cell to 0 before unpadding, so the
returned grid reports unreachable cells with sentinel 0 and never contains
+infinity at all (the behaviour spec design note 9(b) warns against). -/
theorem gdtSolve_no_inf {dem : GridE} {path : List (ℝ × ℝ)} {k : ℕ} {z : ℝ}
    {fuel : ℕ} {g : GridE} (h : gdtSolve dem path k z fuel = .ok g) :
    ∀ row ∈ g.data, ∀ c ∈ row, c ≠ CostE.inf := by
  unfold gdtSolve at h
  try dsimp only at h
  obtain ⟨final, hfin, hpure⟩ := Pattern.except_bind_ok h
  simp only [pure, Except.pure, Except.ok.injEq] at hpure
  subst hpure
  intro row hrow c hc
  try dsimp only at hrow
  unfold unpadData at hrow
  try dsimp only at hrow
  rw [List.mem_map] at hrow
  obtain ⟨row0, hrow0, hroweq⟩ := hrow
  subst hroweq
  have hc2 : c ∈ row0 := List.mem_of_mem_drop (List.mem_of_mem_take hc)
  have hrow1 : row0 ∈ final.map (List.map zeroInf) :=
    List.mem_of_mem_drop (List.mem_of_mem_take hrow0)
  rw [List.mem_map] at hrow1
  obtain ⟨r1, hr1, hr1eq⟩ := hrow1
  subst hr1eq
  rw [List.mem_map] at hc2
  obtain ⟨x, hx, hxeq⟩ := hc2
  subst hxeq
  exact zeroInf_ne_inf x

/-- Witness for `gdtSolve_no_inf`: the counterexample run, whose returned
1-by-1 grid holds the finite cell 0. -/
theorem gdtSolve_no_inf_witness :
    ∃ g : GridE, gdtSolve demC2 pathC2 1 1 9 = .ok g ∧
      g.data = [[CostE.fin 0]] ∧
      ∀ row ∈ g.data, ∀ c ∈ row, c ≠ CostE.inf := by
  exact ⟨_, c2_run, rfl, gdtSolve_no_inf c2_run⟩

end Distance

end DripTorch
